import Mathlib

/-!
# QT-GRBLSender: a shallow embedding of `main.cpp`

The development embeds the stateful core of the `GRBLSender` class: the serial
command channel (`sendCommand`), the notification handler (`readSerial`), the
playback cursor (`loadGCode`, `playGCode`, `sendNextLine`, the pause and resume
handlers), the two recovery slots (`recoverPosition2`, `recoverPosition`,
`findClosestGCodeLine`) and the settings dialog closures of
`openSettingsDialog`.

Conventions.
* `QString` is a list of characters; `QStringList` a list of those.
* C++ `int` members are `Int`.  The cursor never exceeds `gcodeLines.size()`,
  which is itself an `int`, so `currentLine++` cannot overflow.
* The `float` coordinates of the nearest-position scan are embedded twice.
  `findClosestGCodeLine` and `recoverPosition` compute over exact rationals,
  the reading in which the first-minimum property is stated.
  `findClosestGCodeLineF` and `recoverPositionF` compute over IEEE 754 binary32
  values (`F32`), every operation rounded to nearest with ties to even, no
  fused multiply-add; there `QString::toFloat`, which is code of Qt, is a
  parameter, and `toFloatIEEE` is its behaviour on texts inside the range of
  `float`.  The position display `posX`, `posY`, `posZ` stays rational.
* Widgets are replaced by what they receive: `log` collects the arguments of
  `log->append`, `written` the payloads of `serial->write`.
* `QTimer::singleShot(10, this, &GRBLSender::sendNextLine)` is modelled by
  running `sendNextLine` right after the handler that scheduled it; the event
  `Event.timeout` runs `sendNextLine` on its own, for a shot that fires after
  other handlers have run.
* `\d` in a `QRegExp` is modelled on the ASCII digits.
* The slots no theorem below needs (`keyPressEvent`, `refreshPortList`,
  `connectSerial`, `requestStatus`, the manual send) are not embedded.
-/

namespace QtGRBL

/-! ## Strings -/

/-- The text type of the program: `QString` as a list of characters. -/
abbrev QString := List Char

/-- Counterpart of `QString::startsWith`. -/
def startsWith (s pre : QString) : Bool := pre.isPrefixOf s

/-- Counterpart of `QString::contains` for a literal pattern. -/
def contains (pat : QString) : QString → Bool
  | [] => pat.isPrefixOf []
  | c :: cs => pat.isPrefixOf (c :: cs) || contains pat cs

/-- Counterpart of `QChar::isSpace`: the ASCII controls 9 to 13, the blank,
NEL, the no-break space and the Unicode separators. -/
def isSpace (c : Char) : Bool :=
  let n := c.toNat
  (9 ≤ n && n ≤ 13) || n == 32 || n == 0x85 || n == 0xA0 || n == 0x1680 ||
  (0x2000 ≤ n && n ≤ 0x200A) || n == 0x2028 || n == 0x2029 || n == 0x202F ||
  n == 0x205F || n == 0x3000

/-- Counterpart of `QString::trimmed`. -/
def trimmed (s : QString) : QString :=
  ((s.dropWhile isSpace).reverse.dropWhile isSpace).reverse

/-- Counterpart of `QString::number` and of `arg` on an `int`. -/
def number (n : Int) : QString := (toString n).toList

/-- Decimal value of a run of ASCII digits. -/
def decValue (ds : List Char) : Nat :=
  ds.foldl (fun n c => 10 * n + (c.toNat - 48)) 0

/-- Counterpart of `QString::toFloat` on the alphabet `[0-9.-]` that the
regular expressions of the program can capture: an optional minus sign, digits
with at most one decimal point and at least one digit.  Anything else fails
and gives `0`, as `toFloat` does.  The value is exact. -/
def toFloat (s : QString) : ℚ :=
  let neg : Bool := match s with
    | '-' :: _ => true
    | _ => false
  let body : QString := match s with
    | '-' :: r => r
    | _ => s
  let ip := body.takeWhile Char.isDigit
  let fp : Option QString := match body.dropWhile Char.isDigit with
    | [] => some []
    | '.' :: f => if f.all Char.isDigit then some f else none
    | _ :: _ => none
  match fp with
  | none => 0
  | some f =>
    if ip.isEmpty && f.isEmpty then 0
    else
      let v : ℚ := (decValue (ip ++ f) : ℚ) / (10 : ℚ) ^ f.length
      if neg then -v else v

/-- Counterpart of `QRegExp::indexIn`: the anchored matcher `m` is tried at
every position from left to right and the first success is returned. -/
def indexIn {α : Type} (m : QString → Option α) : QString → Option α
  | [] => m []
  | c :: cs =>
    match m (c :: cs) with
    | some r => some r
    | none => indexIn m cs

/-- Character class `[0-9.\-]`. -/
def isNumChar (c : Char) : Bool := c.isDigit || c == '.' || c == '-'

/-- A greedy non-empty run of `[0-9.\-]` followed by the rest of the text. -/
def numRun (l : QString) : Option (QString × QString) :=
  if (l.takeWhile isNumChar).isEmpty then none
  else some (l.takeWhile isNumChar, l.dropWhile isNumChar)

/-- A literal character followed by the rest of the text. -/
def expectChar (c : Char) : QString → Option QString
  | [] => none
  | d :: r => if d == c then some r else none

/-- Anchored match of `MPos:([0-9.\-]+),([0-9.\-]+),([0-9.\-]+)`: the three
captures. -/
def mposMatchAt (l : QString) : Option (QString × QString × QString) :=
  if startsWith l "MPos:".toList then do
    let (c1, r1) ← numRun (l.drop 5)
    let r2 ← expectChar ',' r1
    let (c2, r3) ← numRun r2
    let r4 ← expectChar ',' r3
    let (c3, _) ← numRun r4
    pure (c1, c2, c3)
  else none

/-- Anchored match of `X(-?\d*\.?\d+)` for the axis letter `axis`: the
capture.  The quantifiers are greedy, so the capture is the longest text of
that shape. -/
def axisMatchAt (axis : Char) : QString → Option QString
  | [] => none
  | c :: r =>
    if c == axis then
      let sign : QString := match r with
        | '-' :: _ => ['-']
        | _ => []
      let r1 : QString := match r with
        | '-' :: t => t
        | _ => r
      let ip := r1.takeWhile Char.isDigit
      let fp : QString := match r1.dropWhile Char.isDigit with
        | '.' :: t => t.takeWhile Char.isDigit
        | _ => []
      if !fp.isEmpty then some (sign ++ ip ++ '.' :: fp)
      else if !ip.isEmpty then some (sign ++ ip)
      else none
    else none

/-- The value of the first axis word of `line`, when it has one:
`rx.indexIn(line) != -1` and `rx.cap(1).toFloat()`. -/
def axisWord (axis : Char) (line : QString) : Option ℚ :=
  (indexIn (axisMatchAt axis) line).map toFloat

/-! ## The sender state -/

/-- The members of `GRBLSender` that the slots read and write, with the serial
port and the log widget replaced by what they receive.  `sendAttempts` is
instrumentation: the cursor value of every `sendCommand` call that
`sendNextLine` makes. -/
structure GRBLSender where
  gcodeLines : List QString
  currentLine : Int
  lastSentLine : Int
  paused : Bool
  posX : ℚ
  posY : ℚ
  posZ : ℚ
  serialOpen : Bool
  statusTimerActive : Bool
  written : List QString
  log : List QString
  sendAttempts : List Int

/-- The state after the constructor: the member initialisers of the class. -/
def initial : GRBLSender :=
  { gcodeLines := [], currentLine := 0, lastSentLine := -1, paused := false,
    posX := 0, posY := 0, posZ := 0, serialOpen := false,
    statusTimerActive := false, written := [], log := [], sendAttempts := [] }

/-- Counterpart of `gcodeLines[i]`.  An index out of range is undefined in the
source; the model gives the empty text. -/
def lineAt (lines : List QString) (i : Int) : QString :=
  if 0 ≤ i then lines.getD i.toNat [] else []

/-- Counterpart of `GRBLSender::sendCommand`. -/
def sendCommand (s : GRBLSender) (cmd : QString) : GRBLSender :=
  if s.serialOpen then
    { s with written := s.written ++ [cmd ++ "\n".toList],
             log := s.log ++ [">> ".toList ++ cmd] }
  else s

/-- Counterpart of `GRBLSender::sendNextLine`. -/
def sendNextLine (s : GRBLSender) : GRBLSender :=
  if s.paused || s.currentLine ≥ (s.gcodeLines.length : Int) then s
  else
    let s1 := { s with lastSentLine := s.currentLine,
                       sendAttempts := s.sendAttempts ++ [s.currentLine] }
    let s2 := sendCommand s1 (lineAt s1.gcodeLines s1.currentLine)
    { s2 with currentLine := s2.currentLine + 1 }

/-- Counterpart of `GRBLSender::readSerial` on the text `str` that
`serial->readAll()` returned.  The second component tells whether the handler
scheduled `sendNextLine`. -/
def readSerial (s : GRBLSender) (str : QString) : GRBLSender × Bool :=
  let s1 := { s with log := s.log ++ ["<< ".toList ++ str] }
  let s2 :=
    if contains "<".toList str then
      match indexIn mposMatchAt str with
      | some (c1, c2, c3) =>
        { s1 with posX := toFloat c1, posY := toFloat c2, posZ := toFloat c3 }
      | none => s1
    else s1
  (s2, !s2.paused && !s2.gcodeLines.isEmpty)

/-- One channel notification processed: `readSerial`, then the `sendNextLine`
it scheduled, if it scheduled one. -/
def notification (s : GRBLSender) (str : QString) : GRBLSender :=
  if (readSerial s str).2 then sendNextLine (readSerial s str).1
  else (readSerial s str).1

/-- Counterpart of the `pauseBtn` handler. -/
def pauseClicked (s : GRBLSender) : GRBLSender := { s with paused := true }

/-- Counterpart of the `resumeBtn` handler, with its scheduled
`sendNextLine`. -/
def resumeClicked (s : GRBLSender) : GRBLSender :=
  sendNextLine { s with paused := false }

/-- Counterpart of `GRBLSender::loadGCode`.  `fileName` is what the file
dialog returned (empty when it was cancelled), `file` the lines that
`readLine` yields, or `none` when the file could not be opened. -/
def loadGCode (s : GRBLSender) (fileName : QString) (file : Option (List QString)) :
    GRBLSender :=
  if fileName.isEmpty then s
  else
    match file with
    | none => s
    | some raw =>
      let lines := (raw.map trimmed).filter (fun l => !l.isEmpty)
      { s with gcodeLines := lines,
               log := s.log ++ ["Loaded ".toList ++ number lines.length ++ " lines".toList],
               currentLine := 0,
               lastSentLine := -1 }

/-- Counterpart of `GRBLSender::playGCode`. -/
def playGCode (s : GRBLSender) : GRBLSender :=
  if s.gcodeLines.isEmpty then s
  else sendNextLine { s with paused := false, currentLine := 0 }

/-- The log line `"Recovering to line %1: %2"` with both arguments filled. -/
def recoveringLine (s : GRBLSender) : QString :=
  "Recovering to line ".toList ++ number s.currentLine ++ ": ".toList ++
    lineAt s.gcodeLines s.currentLine

/-- Counterpart of `GRBLSender::recoverPosition2`. -/
def recoverPosition2 (s : GRBLSender) : GRBLSender :=
  if s.lastSentLine ≥ 0 && s.lastSentLine < (s.gcodeLines.length : Int) then
    let s1 := { s with currentLine := s.lastSentLine }
    let s2 := { s1 with log := s1.log ++ [recoveringLine s1] }
    sendNextLine { s2 with paused := false }
  else
    { s with log := s.log ++ ["No recovery point available.".toList] }

/-! ## Nearest-position recovery -/

/-- The local variables of the loop of `findClosestGCodeLine`. -/
structure Scan where
  curX : ℚ
  curY : ℚ
  curZ : ℚ
  bestDist : ℚ
  bestLine : Int

/-- The locals before the first iteration. -/
def scanInit : Scan :=
  { curX := 0, curY := 0, curZ := 0, bestDist := 1000000000, bestLine := -1 }

/-- The test `line.startsWith("G0") || line.startsWith("G1")`. -/
def isMotion (line : QString) : Bool :=
  startsWith line "G0".toList || startsWith line "G1".toList

/-- The body of the loop of `findClosestGCodeLine` at index `i`. -/
def scanLine (tx ty tz : ℚ) (st : Scan) (i : Nat) (line : QString) : Scan :=
  if isMotion line then
    let curX := match axisWord 'X' line with
      | some v => v
      | none => st.curX
    let curY := match axisWord 'Y' line with
      | some v => v
      | none => st.curY
    let curZ := match axisWord 'Z' line with
      | some v => v
      | none => st.curZ
    let dx := curX - tx
    let dy := curY - ty
    let dz := curZ - tz
    let dist := dx * dx + dy * dy + dz * dz
    if dist < st.bestDist then
      { curX := curX, curY := curY, curZ := curZ, bestDist := dist, bestLine := i }
    else
      { curX := curX, curY := curY, curZ := curZ, bestDist := st.bestDist,
        bestLine := st.bestLine }
  else st

/-- The locals of `findClosestGCodeLine` after the first `n` iterations of
its loop. -/
def scanUpTo (lines : List QString) (tx ty tz : ℚ) : Nat → Scan
  | 0 => scanInit
  | n + 1 => scanLine tx ty tz (scanUpTo lines tx ty tz n) n (lines.getD n [])

/-- Counterpart of `GRBLSender::findClosestGCodeLine`: the loop runs
`gcodeLines.size()` times and `bestLine` is returned. -/
def findClosestGCodeLine (s : GRBLSender) (tx ty tz : ℚ) : Int :=
  (scanUpTo s.gcodeLines tx ty tz s.gcodeLines.length).bestLine

/-- Counterpart of `GRBLSender::recoverPosition`.  Each dialog contributes the
value it returned and its `ok` flag. -/
def recoverPosition (s : GRBLSender) (rx : ℚ) (okX : Bool) (ry : ℚ) (okY : Bool)
    (rz : ℚ) (okZ : Bool) : GRBLSender :=
  if !(okX && okY && okZ) then
    { s with log := s.log ++ ["Recovery cancelled.".toList] }
  else
    let closestLine := findClosestGCodeLine s rx ry rz
    if closestLine ≥ 0 then
      let s1 := { s with currentLine := closestLine }
      let s2 := { s1 with log := s1.log ++ [recoveringLine s1] }
      sendNextLine { s2 with paused := false }
    else
      { s with log := s.log ++ ["No matching G-code line found for recovery.".toList] }

/-! ## Streaming events and operations -/

/-- The events that can follow `play()` while a program streams: the two
buttons, a channel notification processed together with the `sendNextLine` it
scheduled, and a single-shot timer that fires `sendNextLine` on its own (a
timer still pending from an earlier handler). -/
inductive Event where
  | pause
  | resume
  | notify (str : QString)
  | timeout

/-- The handler of one streaming event. -/
def Event.run (s : GRBLSender) : Event → GRBLSender
  | Event.pause => pauseClicked s
  | Event.resume => resumeClicked s
  | Event.notify str => notification s str
  | Event.timeout => sendNextLine s

/-- The line `i` of the program as `sendCommand` writes it. -/
def wireLine (lines : List QString) (i : Nat) : QString :=
  lines.getD i [] ++ "\n".toList

/-- What reaches the port for the send attempts `idx`: every line when the
port is open, nothing when it is not. -/
def wireOf (isOpen : Bool) (lines : List QString) (idx : List Nat) : List QString :=
  if isOpen then idx.map (wireLine lines) else []

/-- The operations of the playback controller and the recovery engine. -/
inductive Op where
  | load (fileName : QString) (file : Option (List QString))
  | play
  | stream (e : Event)
  | recoverLast
  | recoverNearest (rx : ℚ) (okX : Bool) (ry : ℚ) (okY : Bool) (rz : ℚ) (okZ : Bool)

/-- The slot behind one operation. -/
def Op.run (s : GRBLSender) : Op → GRBLSender
  | Op.load fileName file => loadGCode s fileName file
  | Op.play => playGCode s
  | Op.stream e => e.run s
  | Op.recoverLast => recoverPosition2 s
  | Op.recoverNearest rx okX ry okY rz okZ => recoverPosition s rx okX ry okY rz okZ

/-- The cursor invariant of the data model. -/
def CursorInv (s : GRBLSender) : Prop :=
  0 ≤ s.currentLine ∧ s.currentLine ≤ (s.gcodeLines.length : Int) ∧
  (s.lastSentLine = -1 ∨ (0 ≤ s.lastSentLine ∧ s.lastSentLine < (s.gcodeLines.length : Int)))

/-- The sender has streamed the first `m` lines of `lines` since the state
whose attempts were `att` and whose writes were `wr`. -/
def Streamed (lines : List QString) (isOpen : Bool) (att : List Int) (wr : List QString)
    (m : Nat) (t : GRBLSender) : Prop :=
  t.gcodeLines = lines ∧ t.serialOpen = isOpen ∧ 1 ≤ m ∧ m ≤ lines.length ∧
  t.currentLine = (m : Int) ∧
  t.sendAttempts = att ++ (List.range m).map Int.ofNat ∧
  t.written = wr ++ wireOf isOpen lines (List.range m)

/-! ## Concrete states for the checks -/

/-- A three-line program used by the concrete checks. -/
def demoProgram : List QString :=
  ["G0 X10 Y0".toList, "G0 X10 Y10".toList, "G0 X20 Y10".toList]

/-- The initial state with `demoProgram` loaded and the port open. -/
def demoOpen : GRBLSender :=
  { initial with gcodeLines := demoProgram, serialOpen := true }

/-- The initial state with `demoProgram` loaded and the port closed. -/
def demoClosed : GRBLSender := { initial with gcodeLines := demoProgram }

/-- The closed-port demo state with the cursor on the second line. -/
def demoMid : GRBLSender := { demoClosed with currentLine := 1 }

/-! ## The specification of the nearest-position scan -/

/-- The simulated tool position after the first `n` lines of the program, as
the specification words it: start at the origin; a line that begins with `G0`
or `G1` replaces the axes for which it carries a word and keeps the others; any
other line changes nothing. -/
def simulatedPosition (lines : List QString) : Nat → ℚ × ℚ × ℚ
  | 0 => (0, 0, 0)
  | n + 1 =>
    if isMotion (lines.getD n []) then
      ((axisWord 'X' (lines.getD n [])).getD (simulatedPosition lines n).1,
       (axisWord 'Y' (lines.getD n [])).getD (simulatedPosition lines n).2.1,
       (axisWord 'Z' (lines.getD n [])).getD (simulatedPosition lines n).2.2)
    else simulatedPosition lines n

/-- Squared Euclidean distance from the position `p` to the target. -/
def sqDist (p : ℚ × ℚ × ℚ) (tx ty tz : ℚ) : ℚ :=
  (p.1 - tx) * (p.1 - tx) + (p.2.1 - ty) * (p.2.1 - ty) + (p.2.2 - tz) * (p.2.2 - tz)

/-- Squared distance from the simulated position after line `j` to the
target. -/
def lineDist (lines : List QString) (tx ty tz : ℚ) (j : Nat) : ℚ :=
  sqDist (simulatedPosition lines (j + 1)) tx ty tz

/-- What the loop of `findClosestGCodeLine` maintains after `n` iterations. -/
structure ScanInv (lines : List QString) (tx ty tz : ℚ) (n : Nat) (st : Scan) : Prop where
  pos : (st.curX, st.curY, st.curZ) = simulatedPosition lines n
  bound : st.bestDist ≤ 1000000000
  lower : ∀ j, j < n → isMotion (lines.getD j []) = true →
    st.bestDist ≤ lineDist lines tx ty tz j
  best : (st.bestLine = -1 ∧ st.bestDist = 1000000000) ∨
    ∃ i : Nat, i < n ∧ st.bestLine = (i : Int) ∧ isMotion (lines.getD i []) = true ∧
      st.bestDist = lineDist lines tx ty tz i ∧ st.bestDist < 1000000000 ∧
      ∀ j, j < i → isMotion (lines.getD j []) = true →
        st.bestDist < lineDist lines tx ty tz j

/-! ## The nearest-position scan in binary32 arithmetic -/

/-- A value of the C++ type `float` (IEEE 754 binary32), also used for
`double`: a finite value, given by the rational it denotes, an infinity with
its sign, or a NaN.  The two zeros are not told apart. -/
inductive F32 where
  | fin (q : ℚ)
  | inf (neg : Bool)
  | nan
  deriving DecidableEq

/-- The power `2 ^ k` for an integer exponent. -/
def pow2 (k : Int) : ℚ :=
  if 0 ≤ k then ((2 ^ k.toNat : Nat) : ℚ) else 1 / ((2 ^ (-k).toNat : Nat) : ℚ)

/-- The position of the leading bit of `n`, counted by halving; the fuel `n`
is never used up. -/
def leadingBit : Nat → Nat → Nat
  | 0, _ => 0
  | fuel + 1, n => if 2 ≤ n then leadingBit fuel (n / 2) + 1 else 0

/-- The exponent `e` with `2 ^ e ≤ a < 2 ^ (e + 1)`, for `a > 0`. -/
def floorLog2 (a : ℚ) : Int :=
  if pow2 ((leadingBit a.num.natAbs a.num.natAbs : Int) - (leadingBit a.den a.den : Int)) ≤ a then
    (leadingBit a.num.natAbs a.num.natAbs : Int) - (leadingBit a.den a.den : Int)
  else (leadingBit a.num.natAbs a.num.natAbs : Int) - (leadingBit a.den a.den : Int) - 1

/-- The integer nearest to `x ≥ 0`, a tie going to the even one. -/
def roundHalfEven (x : ℚ) : Nat :=
  if x - (⌊x⌋.toNat : ℚ) < 1 / 2 then ⌊x⌋.toNat
  else if 1 / 2 < x - (⌊x⌋.toNat : ℚ) then ⌊x⌋.toNat + 1
  else if ⌊x⌋.toNat % 2 = 0 then ⌊x⌋.toNat
  else ⌊x⌋.toNat + 1

/-- Rounding of the rational `q` to the binary format with `p` significant
bits and exponents from `emin` to `emax`, to nearest with ties to even:
subnormals below `2 ^ emin`, an infinity from `2 ^ (emax + 1)` on. -/
def roundTo (p : Nat) (emin emax : Int) (q : ℚ) : F32 :=
  if q = 0 then F32.fin 0
  else if pow2 (emax + 1) ≤
      (roundHalfEven (|q| / pow2 (max (floorLog2 |q|) emin - ((p : Int) - 1))) : ℚ)
        * pow2 (max (floorLog2 |q|) emin - ((p : Int) - 1)) then
    F32.inf (decide (q < 0))
  else if q < 0 then
    F32.fin (-((roundHalfEven (|q| / pow2 (max (floorLog2 |q|) emin - ((p : Int) - 1))) : ℚ)
        * pow2 (max (floorLog2 |q|) emin - ((p : Int) - 1))))
  else
    F32.fin ((roundHalfEven (|q| / pow2 (max (floorLog2 |q|) emin - ((p : Int) - 1))) : ℚ)
        * pow2 (max (floorLog2 |q|) emin - ((p : Int) - 1)))

/-- Rounding to `float`. -/
def F32.round (q : ℚ) : F32 := roundTo 24 (-126) 127 q

/-- The `float` subtraction `a - b`. -/
def F32.sub : F32 → F32 → F32
  | F32.fin a, F32.fin b => F32.round (a - b)
  | F32.fin _, F32.inf t => F32.inf (!t)
  | F32.inf s, F32.fin _ => F32.inf s
  | F32.inf s, F32.inf t => if s = t then F32.nan else F32.inf s
  | F32.nan, _ => F32.nan
  | _, F32.nan => F32.nan

/-- The `float` addition `a + b`. -/
def F32.add : F32 → F32 → F32
  | F32.fin a, F32.fin b => F32.round (a + b)
  | F32.fin _, F32.inf t => F32.inf t
  | F32.inf s, F32.fin _ => F32.inf s
  | F32.inf s, F32.inf t => if s = t then F32.inf s else F32.nan
  | F32.nan, _ => F32.nan
  | _, F32.nan => F32.nan

/-- The `float` multiplication `a * b`. -/
def F32.mul : F32 → F32 → F32
  | F32.fin a, F32.fin b => F32.round (a * b)
  | F32.fin a, F32.inf t => if a = 0 then F32.nan else F32.inf (decide (a < 0) != t)
  | F32.inf s, F32.fin b => if b = 0 then F32.nan else F32.inf (s != decide (b < 0))
  | F32.inf s, F32.inf t => F32.inf (s != t)
  | F32.nan, _ => F32.nan
  | _, F32.nan => F32.nan

/-- The `float` comparison `a < b`; it is false when either side is a NaN. -/
def F32.lt : F32 → F32 → Bool
  | F32.fin a, F32.fin b => decide (a < b)
  | F32.fin _, F32.inf t => !t
  | F32.inf s, F32.fin _ => s
  | F32.inf s, F32.inf t => s && !t
  | F32.nan, _ => false
  | _, F32.nan => false

/-- The conversion `QString::toFloat` of Qt on the texts the axis patterns
capture, for a value inside the range of `float`: the decimal value is rounded
to `double` and the `double` to `float`. -/
def toFloatIEEE (s : QString) : F32 :=
  match roundTo 53 (-1022) 1023 (toFloat s) with
  | F32.fin d => F32.round d
  | F32.inf t => F32.inf t
  | F32.nan => F32.nan

/-- The local variables of the loop of `findClosestGCodeLine`, as the C++
`float` values they are. -/
structure ScanF where
  curX : F32
  curY : F32
  curZ : F32
  bestDist : F32
  bestLine : Int

/-- The locals before the first iteration; `1e9` is a value of `float`. -/
def scanInitF : ScanF :=
  { curX := F32.fin 0, curY := F32.fin 0, curZ := F32.fin 0,
    bestDist := F32.fin 1000000000, bestLine := -1 }

/-- The `float` expression `dx*dx + dy*dy + dz*dz` with `dx = x - tx`,
`dy = y - ty`, `dz = z - tz`, every operation rounded to `float`. -/
def distF (x y z tx ty tz : F32) : F32 :=
  F32.add
    (F32.add (F32.mul (F32.sub x tx) (F32.sub x tx)) (F32.mul (F32.sub y ty) (F32.sub y ty)))
    (F32.mul (F32.sub z tz) (F32.sub z tz))

/-- The body of the loop of `findClosestGCodeLine` at index `i`, in `float`
arithmetic.  `conv` stands for `QString::toFloat`, which is code of Qt. -/
def scanLineF (conv : QString → F32) (tx ty tz : F32) (st : ScanF) (i : Nat)
    (line : QString) : ScanF :=
  if isMotion line then
    let curX := match indexIn (axisMatchAt 'X') line with
      | some c => conv c
      | none => st.curX
    let curY := match indexIn (axisMatchAt 'Y') line with
      | some c => conv c
      | none => st.curY
    let curZ := match indexIn (axisMatchAt 'Z') line with
      | some c => conv c
      | none => st.curZ
    let dist := distF curX curY curZ tx ty tz
    if F32.lt dist st.bestDist then
      { curX := curX, curY := curY, curZ := curZ, bestDist := dist, bestLine := i }
    else
      { curX := curX, curY := curY, curZ := curZ, bestDist := st.bestDist,
        bestLine := st.bestLine }
  else st

/-- The `float` locals of `findClosestGCodeLine` after the first `n`
iterations of its loop. -/
def scanUpToF (conv : QString → F32) (lines : List QString) (tx ty tz : F32) : Nat → ScanF
  | 0 => scanInitF
  | n + 1 => scanLineF conv tx ty tz (scanUpToF conv lines tx ty tz n) n (lines.getD n [])

/-- Counterpart of `GRBLSender::findClosestGCodeLine` in `float` arithmetic. -/
def findClosestGCodeLineF (conv : QString → F32) (s : GRBLSender) (tx ty tz : F32) : Int :=
  (scanUpToF conv s.gcodeLines tx ty tz s.gcodeLines.length).bestLine

/-- Counterpart of `GRBLSender::recoverPosition` in `float` arithmetic.  Each
dialog contributes the value it returned, converted to `float`, and its `ok`
flag. -/
def recoverPositionF (conv : QString → F32) (s : GRBLSender) (rx : F32) (okX : Bool)
    (ry : F32) (okY : Bool) (rz : F32) (okZ : Bool) : GRBLSender :=
  if !(okX && okY && okZ) then
    { s with log := s.log ++ ["Recovery cancelled.".toList] }
  else
    let closestLine := findClosestGCodeLineF conv s rx ry rz
    if closestLine ≥ 0 then
      let s1 := { s with currentLine := closestLine }
      let s2 := { s1 with log := s1.log ++ [recoveringLine s1] }
      sendNextLine { s2 with paused := false }
    else
      { s with log := s.log ++ ["No matching G-code line found for recovery.".toList] }

/-- The simulated tool position after the first `n` lines of the program, in
`float` coordinates: start at the origin; a line that begins with `G0` or `G1`
replaces the axes for which it carries a word and keeps the others; any other
line changes nothing. -/
def simulatedPositionF (conv : QString → F32) (lines : List QString) : Nat → F32 × F32 × F32
  | 0 => (F32.fin 0, F32.fin 0, F32.fin 0)
  | n + 1 =>
    if isMotion (lines.getD n []) then
      (((indexIn (axisMatchAt 'X') (lines.getD n [])).map conv).getD
          (simulatedPositionF conv lines n).1,
       ((indexIn (axisMatchAt 'Y') (lines.getD n [])).map conv).getD
          (simulatedPositionF conv lines n).2.1,
       ((indexIn (axisMatchAt 'Z') (lines.getD n [])).map conv).getD
          (simulatedPositionF conv lines n).2.2)
    else simulatedPositionF conv lines n

/-- The squared distance, as the `float` the code computes, from the simulated
position after line `j` to the target. -/
def lineDistF (conv : QString → F32) (lines : List QString) (tx ty tz : F32) (j : Nat) : F32 :=
  distF (simulatedPositionF conv lines (j + 1)).1 (simulatedPositionF conv lines (j + 1)).2.1
    (simulatedPositionF conv lines (j + 1)).2.2 tx ty tz

/-- The values a sum of squares can take: a NaN, the positive infinity or a
finite value that is not negative. -/
def F32.NonNeg (v : F32) : Prop :=
  v = F32.nan ∨ v = F32.inf false ∨ ∃ r : ℚ, 0 ≤ r ∧ v = F32.fin r

/-- A program whose first line lies `1e-31` from the origin and whose second
line lies at the origin. -/
def underflowProgram : List QString :=
  ["G0 X0.0000000000000000000000000000001".toList, "G0 X0".toList]

/-- The initial state with `underflowProgram` loaded and the port open. -/
def underflowOpen : GRBLSender :=
  { initial with gcodeLines := underflowProgram, serialOpen := true }

/-! ## The settings dialog -/

/-- The map type of the dialog, `QMap<QString, QString>`: an association list
kept in ascending key order, one entry per key. -/
abbrev QMap := List (QString × QString)

/-- Counterpart of `map[key] = val` on a non-const `QMap`. -/
def mapInsert (k v : QString) : QMap → QMap
  | [] => [(k, v)]
  | (k', v') :: m =>
    if k < k' then (k, v) :: (k', v') :: m
    else if k = k' then (k, v) :: m
    else (k', v') :: mapInsert k v m

/-- Counterpart of `QMap::contains`. -/
def mapContains (m : QMap) (k : QString) : Bool := (m.lookup k).isSome

/-- Counterpart of `QMap::value(key, dflt)`, and of `map[key]` when it only
reads (a missing key reads as the default-constructed text). -/
def mapValue (m : QMap) (k : QString) (dflt : QString) : QString := (m.lookup k).getD dflt

/-- Counterpart of `QMap::keys`: ascending key order. -/
def mapKeys (m : QMap) : List QString := m.map Prod.fst

/-- The table `descriptions` of `openSettingsDialog`. -/
def descriptions : QMap :=
  [("$0", "Step pulse time (μs)"), ("$1", "Step idle delay (ms)"),
   ("$2", "Step port invert mask"), ("$3", "Direction port invert mask"),
   ("$4", "Step enable invert"), ("$5", "Limit pins invert"),
   ("$6", "Probe pin invert"), ("$10", "Status report mask"),
   ("$11", "Junction deviation"), ("$12", "Arc tolerance"),
   ("$13", "Report inches"), ("$20", "Soft limits"),
   ("$21", "Hard limits"), ("$22", "Homing cycle"),
   ("$23", "Homing direction invert"), ("$24", "Homing feed (mm/min)"),
   ("$25", "Homing seek (mm/min)"), ("$26", "Homing debounce (ms)"),
   ("$27", "Homing pull-off (mm)"), ("$30", "Max spindle speed"),
   ("$31", "Min spindle speed"), ("$32", "Laser mode"),
   ("$100", "X steps/mm"), ("$101", "Y steps/mm"), ("$102", "Z steps/mm"),
   ("$110", "X max rate (mm/min)"), ("$111", "Y max rate (mm/min)"),
   ("$112", "Z max rate (mm/min)"), ("$120", "X accel (mm/s^2)"),
   ("$121", "Y accel (mm/s^2)"), ("$122", "Z accel (mm/s^2)"),
   ("$130", "X max travel (mm)"), ("$131", "Y max travel (mm)"),
   ("$132", "Z max travel (mm)")].foldl
    (fun m (p : String × String) => mapInsert p.1.toList p.2.toList m) []

/-- Counterpart of `QString::toInt` on a run of ASCII digits, the only texts
the dialog converts: the decimal value when it fits a 32-bit `int`, and `0`
(the result of a failed conversion) otherwise. -/
def toInt (s : QString) : Int :=
  if !s.isEmpty && s.all Char.isDigit && decValue s ≤ 2147483647 then (decValue s : Int)
  else 0

/-- Counterpart of the lambda `numericKeyLessThan`. -/
def numericKeyLessThan (a b : QString) : Bool := toInt (a.drop 1) < toInt (b.drop 1)

/-- Insertion of `x` into a list ordered by `lt`, after the elements that are
not above it. -/
def insertSorted {α : Type} (lt : α → α → Bool) (x : α) : List α → List α
  | [] => [x]
  | y :: ys => if lt x y then x :: y :: ys else y :: insertSorted lt x ys

/-- Counterpart of `std::sort` with a comparator.  The standard leaves the
relative order of equivalent elements open; the model is an insertion sort. -/
def stdSort {α : Type} (lt : α → α → Bool) (l : List α) : List α :=
  l.foldl (fun acc x => insertSorted lt x acc) []

/-- Anchored match of `\$(\d+)=([\d\.\-]+)`: the two captures and the text
after the match. -/
def settingMatchAt : QString → Option (QString × QString × QString)
  | [] => none
  | c :: r =>
    if c == '$' then
      if (r.takeWhile Char.isDigit).isEmpty then none
      else
        match r.dropWhile Char.isDigit with
        | [] => none
        | e :: r2 =>
          if e == '=' then
            if (r2.takeWhile isNumChar).isEmpty then none
            else some (r.takeWhile Char.isDigit, r2.takeWhile isNumChar,
                       r2.dropWhile isNumChar)
          else none
    else none

/-- The captures of the successive iterations of
`while ((pos = rx.indexIn(buffer, pos)) != -1) { ...; pos += rx.matchedLength(); }`
on the text from `pos` on.  Every iteration consumes at least one character, so
a fuel of the length of the text is never used up. -/
def settingsMatches : Nat → QString → List (QString × QString)
  | 0, _ => []
  | fuel + 1, l =>
    match indexIn settingMatchAt l with
    | none => []
    | some (id, v, rest) => (id, v) :: settingsMatches fuel rest

/-- All the matches of the pattern in `buffer`, left to right and without
overlap. -/
def allSettingMatches (buffer : QString) : List (QString × QString) :=
  settingsMatches buffer.length buffer

/-- The body of the parsing loop over all its iterations: `map[key] = val` for
every match, in match order, with `key = "$" + rx.cap(1)`. -/
def recordMatches (ms : List (QString × QString)) (m : QMap) : QMap :=
  ms.foldl (fun acc p => mapInsert ('$' :: p.1) p.2 acc) m

/-- A row of the settings table: key, value, description. -/
abbrev Row := QString × QString × QString

/-- The rows the reader appends for the map `found`: keys sorted by
`numericKeyLessThan`, each with its value and its description. -/
def rowsOf (found : QMap) : List Row :=
  (stdSort numericKeyLessThan (mapKeys found)).map
    (fun key => (key, mapValue found key [], mapValue descriptions key []))

/-- The captured variables of the nested `readyRead` closure of the fetch
handler.  The closure is `[=]() mutable`: it owns copies of `buffer`, `found`
and `originalValues`, made when the closure is created. -/
structure Reader where
  buffer : QString
  found : QMap
  originalValues : QMap

/-- The settings dialog: the table, the copy of `originalValues` held by the
fetch closure, the copy held by the apply closure, and the reader closures
still connected, oldest first. -/
structure SettingsDialog where
  table : List Row
  fetchOriginalValues : QMap
  applyOriginalValues : QMap
  readers : List Reader

/-- Counterpart of `openSettingsDialog` up to the `connect` calls: the local
`originalValues` is empty, and each of the two `[=]` closures copies it at
that moment. -/
def openSettingsDialog : SettingsDialog :=
  let originalValues : QMap := []
  { table := [], fetchOriginalValues := originalValues,
    applyOriginalValues := originalValues, readers := [] }

/-- Counterpart of the `fetchBtn` handler.  The new reader closure copies the
fresh `buffer` and `found` and the fetch closure's own `originalValues`. -/
def fetchClicked (g : GRBLSender) (d : SettingsDialog) : GRBLSender × SettingsDialog :=
  let buffer : QString := []
  let found : QMap := []
  let g1 := sendCommand { g with statusTimerActive := false } "$$\n".toList
  (g1, { d with table := [],
                readers := d.readers ++
                  [{ buffer := buffer, found := found,
                     originalValues := d.fetchOriginalValues }] })

/-- The result of one run of a reader closure. -/
structure ReaderStep where
  sender : GRBLSender
  table : List Row
  reader : Reader
  connected : Bool

/-- Counterpart of the nested `readyRead` closure on the text `data` that its
`serial->readAll()` returned. -/
def readerReadyRead (g : GRBLSender) (table : List Row) (r : Reader) (data : QString) :
    ReaderStep :=
  let buffer := r.buffer ++ data
  if contains "ok".toList buffer then
    let found := recordMatches (allSettingMatches buffer) r.found
    let originalValues := recordMatches (allSettingMatches buffer) r.originalValues
    { sender := { g with statusTimerActive := true },
      table := table ++ rowsOf found,
      reader := { buffer := buffer, found := found, originalValues := originalValues },
      connected := false }
  else
    { sender := g, table := table, reader := { r with buffer := buffer },
      connected := true }

/-- One `readyRead` signal delivered to the connected readers in connection
order.  The first reader's `readAll()` takes the data; the later ones read
nothing. -/
def deliverReaders (g : GRBLSender) (table : List Row) (data : QString) :
    List Reader → GRBLSender × List Row × List Reader
  | [] => (g, table, [])
  | r :: rs =>
    let st := readerReadyRead g table r data
    let rest := deliverReaders st.sender st.table [] rs
    (rest.1, rest.2.1, if st.connected then st.reader :: rest.2.2 else rest.2.2)

/-- One `readyRead` signal while the dialog is open.  The reader closures run
first, in connection order; `readSerial`, which the fetch handler reconnects
after each new reader, runs last (with the `sendNextLine` it schedules) and
reads the data only when no reader was connected to take it. -/
def dialogReadyRead (g : GRBLSender) (d : SettingsDialog) (data : QString) :
    GRBLSender × SettingsDialog :=
  let out := deliverReaders g d.table data d.readers
  (notification out.1 (if d.readers.isEmpty then data else []),
    { d with table := out.2.1, readers := out.2.2 })

/-- The user edits the value cell of row `row`. -/
def editValue (d : SettingsDialog) (row : Nat) (text : QString) : SettingsDialog :=
  { d with table := d.table.modify (fun r => (r.1, text, r.2.2)) row }

/-- Counterpart of the `applyBtn` handler: it reads its own copy of
`originalValues`. -/
def applyClicked (g : GRBLSender) (d : SettingsDialog) : GRBLSender :=
  let g1 := d.table.foldl
    (fun acc row =>
      if mapContains d.applyOriginalValues row.1 &&
          mapValue d.applyOriginalValues row.1 [] != row.2.1 then
        sendCommand acc (row.1 ++ "=".toList ++ row.2.1 ++ "\n".toList)
      else acc) g
  { g1 with log := g1.log ++ ["Sent modified GRBL settings.".toList] }

/-- What can happen to an open settings dialog. -/
inductive DialogEvent where
  | fetch
  | readyRead (data : QString)
  | edit (row : Nat) (text : QString)
  | apply

/-- The handler of one dialog event. -/
def DialogEvent.run (p : GRBLSender × SettingsDialog) : DialogEvent → GRBLSender × SettingsDialog
  | DialogEvent.fetch => fetchClicked p.1 p.2
  | DialogEvent.readyRead data => dialogReadyRead p.1 p.2 data
  | DialogEvent.edit row text => (p.1, editValue p.2 row text)
  | DialogEvent.apply => (applyClicked p.1 p.2, p.2)

/-- The rows the reader exposes for the accumulated text `buffer`, starting
from an empty `found`. -/
def fetchedRows (buffer : QString) : List Row :=
  rowsOf (recordMatches (allSettingMatches buffer) [])

/-- A reader closure as `fetchClicked` creates it in a dialog that has just
been opened. -/
def freshReader : Reader := { buffer := [], found := [], originalValues := [] }

/-- The initial state with the port open and no program loaded. -/
def idleOpen : GRBLSender := { initial with serialOpen := true }

/-- The dialog after a fetch whose reply is `$0=10`, `ok`, and an edit of the
value of `$0` to `11`; the port is open. -/
def editedDialog : GRBLSender × SettingsDialog :=
  [DialogEvent.fetch, DialogEvent.readyRead "$0=10\nok\n".toList,
    DialogEvent.edit 0 "11".toList].foldl DialogEvent.run (idleOpen, openSettingsDialog)

/-! # Theorems -/

/-! ## Playback: one step -/

theorem sendNextLine_blocked (s : GRBLSender)
    (h : s.paused = true ∨ (s.gcodeLines.length : Int) ≤ s.currentLine) :
    sendNextLine s = s := by
  unfold sendNextLine
  rcases h with h | h
  · simp [h]
  · simp [h]

theorem sendNextLine_fires (s : GRBLSender) (c : Nat) (hp : s.paused = false)
    (hc : s.currentLine = (c : Int)) (hlt : c < s.gcodeLines.length) :
    (sendNextLine s).currentLine = ((c + 1 : Nat) : Int) ∧
    (sendNextLine s).lastSentLine = (c : Int) ∧
    (sendNextLine s).sendAttempts = s.sendAttempts ++ [(c : Int)] ∧
    (sendNextLine s).written = s.written ++ wireOf s.serialOpen s.gcodeLines [c] ∧
    (sendNextLine s).gcodeLines = s.gcodeLines ∧
    (sendNextLine s).paused = false ∧
    (sendNextLine s).serialOpen = s.serialOpen := by
  unfold sendNextLine
  cases ho : s.serialOpen <;>
    simp [hp, Nat.not_le.mpr hlt, sendCommand, ho, hc, wireOf, wireLine, lineAt]

theorem readSerial_frame (s : GRBLSender) (str : QString) :
    (readSerial s str).1.gcodeLines = s.gcodeLines ∧
    (readSerial s str).1.currentLine = s.currentLine ∧
    (readSerial s str).1.lastSentLine = s.lastSentLine ∧
    (readSerial s str).1.paused = s.paused ∧
    (readSerial s str).1.sendAttempts = s.sendAttempts ∧
    (readSerial s str).1.written = s.written ∧
    (readSerial s str).1.serialOpen = s.serialOpen ∧
    (readSerial s str).2 = (!s.paused && !s.gcodeLines.isEmpty) := by
  unfold readSerial
  split
  · split <;> simp
  · simp

/-- One notification while unpaused with the cursor inside the program:
the line at the cursor is attempted and the cursor moves on. -/
theorem notification_fires (s : GRBLSender) (str : QString) (c : Nat)
    (hp : s.paused = false) (hc : s.currentLine = (c : Int))
    (hlt : c < s.gcodeLines.length) :
    (notification s str).currentLine = ((c + 1 : Nat) : Int) ∧
    (notification s str).lastSentLine = (c : Int) ∧
    (notification s str).sendAttempts = s.sendAttempts ++ [(c : Int)] ∧
    (notification s str).written = s.written ++ wireOf s.serialOpen s.gcodeLines [c] ∧
    (notification s str).gcodeLines = s.gcodeLines ∧
    (notification s str).paused = false ∧
    (notification s str).serialOpen = s.serialOpen := by
  obtain ⟨hg, hcur, -, hpa, hat, hwr, hop, hsch⟩ := readSerial_frame s str
  have hne : s.gcodeLines ≠ [] := by
    intro h; rw [h] at hlt; exact Nat.not_lt_zero _ hlt
  have hsched : (readSerial s str).2 = true := by
    rw [hsch, hp]; cases hl : s.gcodeLines with
    | nil => exact absurd hl hne
    | cons a l => rfl
  have key := sendNextLine_fires (readSerial s str).1 c (hpa.trans hp) (hcur.trans hc)
    (by rw [hg]; exact hlt)
  unfold notification
  rw [if_pos hsched]
  rw [hat, hwr, hg, hop] at key
  exact key

/-- One notification that sends nothing, because the sender is paused or the
cursor is at the end of the program. -/
theorem notification_idle (s : GRBLSender) (str : QString)
    (h : s.paused = true ∨ (s.gcodeLines.length : Int) ≤ s.currentLine) :
    (notification s str).currentLine = s.currentLine ∧
    (notification s str).lastSentLine = s.lastSentLine ∧
    (notification s str).sendAttempts = s.sendAttempts ∧
    (notification s str).written = s.written ∧
    (notification s str).gcodeLines = s.gcodeLines ∧
    (notification s str).paused = s.paused ∧
    (notification s str).serialOpen = s.serialOpen := by
  obtain ⟨hg, hcur, hls, hpa, hat, hwr, hop, -⟩ := readSerial_frame s str
  have hb : sendNextLine (readSerial s str).1 = (readSerial s str).1 := by
    apply sendNextLine_blocked
    rw [hpa, hg, hcur]; exact h
  unfold notification
  split
  · rw [hb]; exact ⟨hcur, hls, hat, hwr, hg, hpa, hop⟩
  · exact ⟨hcur, hls, hat, hwr, hg, hpa, hop⟩

theorem wireOf_append (o : Bool) (lines : List QString) (a b : List Nat) :
    wireOf o lines (a ++ b) = wireOf o lines a ++ wireOf o lines b := by
  cases o <;> simp [wireOf]

/-- Claim C1.  From an unpaused state whose cursor `c0` lies in `[0, N]`,
processing `k` channel notifications leaves the cursor at `min (c0 + k) N`;
the send attempts made are those for the indices `c0, c0 + 1, ...,
min (c0 + k) N - 1`, in that order and once each, whether the port is open
(each line is then written) or not (nothing is written, the cursor still
advances). -/
theorem notifications_advance_cursor (datas : List QString) (s : GRBLSender) (c0 : Nat)
    (hp : s.paused = false) (hc : s.currentLine = (c0 : Int))
    (hN : c0 ≤ s.gcodeLines.length) :
    (datas.foldl notification s).currentLine
        = ((min (c0 + datas.length) s.gcodeLines.length : Nat) : Int) ∧
    (datas.foldl notification s).sendAttempts
        = s.sendAttempts ++
          (List.range' c0 (min (c0 + datas.length) s.gcodeLines.length - c0)).map Int.ofNat ∧
    (datas.foldl notification s).written
        = s.written ++ wireOf s.serialOpen s.gcodeLines
          (List.range' c0 (min (c0 + datas.length) s.gcodeLines.length - c0)) := by
  induction datas generalizing s c0 with
  | nil =>
    simp [hc, hN, wireOf]
  | cons d ds ih =>
    rw [List.foldl_cons]
    rcases Nat.lt_or_ge c0 s.gcodeLines.length with hlt | hge
    · obtain ⟨h1, -, h3, h4, h5, h6, h7⟩ := notification_fires s d c0 hp hc hlt
      obtain ⟨i1, i2, i3⟩ := ih (notification s d) (c0 + 1) h6 h1 (by rw [h5]; exact hlt)
      rw [h5] at i1 i2 i3
      have e1 : min (c0 + 1 + ds.length) s.gcodeLines.length
          = min (c0 + (d :: ds).length) s.gcodeLines.length := by
        simp [List.length_cons]; omega
      have e2 : min (c0 + (d :: ds).length) s.gcodeLines.length - c0
          = (min (c0 + 1 + ds.length) s.gcodeLines.length - (c0 + 1)) + 1 := by
        simp [List.length_cons]; omega
      rw [e2, List.range'_succ, ← e1]
      refine ⟨i1, ?_, ?_⟩
      · rw [i2, h3]; simp
      · rw [i3, h4, h7, List.append_assoc, ← wireOf_append]; simp
    · have hEq : c0 = s.gcodeLines.length := Nat.le_antisymm hN hge
      obtain ⟨h1, -, h3, h4, h5, h6, h7⟩ := notification_idle s d
        (Or.inr (by rw [hc]; exact_mod_cast hge))
      obtain ⟨i1, i2, i3⟩ := ih (notification s d) c0 (h6.trans hp) (h1.trans hc)
        (by rw [h5]; exact hN)
      rw [h5] at i1 i2 i3
      have e1 : min (c0 + ds.length) s.gcodeLines.length
          = min (c0 + (d :: ds).length) s.gcodeLines.length := by
        simp [List.length_cons]; omega
      rw [← e1]
      refine ⟨i1, ?_, ?_⟩
      · rw [i2, h3]
      · rw [i3, h4, h7]

/-! ## Playback: pause and resume -/

theorem sendNextLine_streamed (lines : List QString) (o : Bool) (att : List Int)
    (wr : List QString) (m : Nat) (t : GRBLSender) (h : Streamed lines o att wr m t) :
    ∃ m', Streamed lines o att wr m' (sendNextLine t) := by
  obtain ⟨hg, ho, h1, hm, hc, ha, hw⟩ := h
  by_cases hb : t.paused = true ∨ (t.gcodeLines.length : Int) ≤ t.currentLine
  · rw [sendNextLine_blocked t hb]
    exact ⟨m, hg, ho, h1, hm, hc, ha, hw⟩
  · have hp : t.paused = false := by
      cases hq : t.paused with
      | false => rfl
      | true => exact absurd (Or.inl hq) hb
    have hlt : m < t.gcodeLines.length := by
      have : ¬ ((t.gcodeLines.length : Int) ≤ t.currentLine) := fun h => hb (Or.inr h)
      rw [hc] at this; omega
    obtain ⟨f1, -, f3, f4, f5, -, f7⟩ := sendNextLine_fires t m hp hc hlt
    refine ⟨m + 1, f5.trans hg, f7.trans ho, by omega, by rw [← hg]; exact hlt, f1, ?_, ?_⟩
    · rw [f3, ha, List.range_succ, List.map_append, List.append_assoc]; rfl
    · rw [f4, hw, ho, hg, List.range_succ, wireOf_append, List.append_assoc]

theorem event_streamed (lines : List QString) (o : Bool) (att : List Int)
    (wr : List QString) (m : Nat) (t : GRBLSender) (e : Event)
    (h : Streamed lines o att wr m t) :
    ∃ m', Streamed lines o att wr m' (e.run t) := by
  cases e with
  | pause => exact ⟨m, h⟩
  | resume =>
    apply sendNextLine_streamed lines o att wr m
    exact h
  | notify str =>
    obtain ⟨hg, hcur, -, -, hat, hwr, hop, -⟩ := readSerial_frame t str
    obtain ⟨g, ho, h1, hm, hc, ha, hw⟩ := h
    have hr : Streamed lines o att wr m (readSerial t str).1 :=
      ⟨hg.trans g, hop.trans ho, h1, hm, hcur.trans hc, hat.trans ha, hwr.trans hw⟩
    show ∃ m', Streamed lines o att wr m' (notification t str)
    unfold notification
    split
    · exact sendNextLine_streamed lines o att wr m _ hr
    · exact ⟨m, hr⟩
  | timeout =>
    apply sendNextLine_streamed lines o att wr m
    exact h

theorem events_streamed (lines : List QString) (o : Bool) (att : List Int)
    (wr : List QString) (evs : List Event) (m : Nat) (t : GRBLSender)
    (h : Streamed lines o att wr m t) :
    ∃ m', Streamed lines o att wr m' (evs.foldl Event.run t) := by
  induction evs generalizing m t with
  | nil => exact ⟨m, h⟩
  | cons e es ih =>
    obtain ⟨m1, h1⟩ := event_streamed lines o att wr m t e h
    exact ih m1 _ h1

theorem playGCode_streamed (s : GRBLSender) (h : s.gcodeLines ≠ []) :
    Streamed s.gcodeLines s.serialOpen s.sendAttempts s.written 1 (playGCode s) := by
  have hlen : 0 < s.gcodeLines.length := List.length_pos.mpr h
  have hemp : s.gcodeLines.isEmpty = false := by
    cases hl : s.gcodeLines with
    | nil => exact absurd hl h
    | cons a l => rfl
  obtain ⟨f1, -, f3, f4, f5, -, f7⟩ :=
    sendNextLine_fires { s with paused := false, currentLine := 0 } 0 rfl rfl hlen
  unfold playGCode
  rw [hemp]
  exact ⟨f5, f7, Nat.le_refl 1, hlen, f1, f3, f4⟩

/-- Claim C2.  After `play()` on a non-empty program, whatever pause, resume
and notification events (and stray timer shots) follow, the indices attempted since before the play
are `0, 1, ..., m - 1` for some `1 ≤ m ≤ N`, consecutive and without
repetition (and the port received exactly those lines when it is open); the
cursor is `m`; and a notification processed in the resulting state while it is
paused attempts and writes nothing. -/
theorem pause_resume_streams_in_order (s : GRBLSender) (evs : List Event)
    (h : s.gcodeLines ≠ []) :
    ∃ m : Nat, 1 ≤ m ∧ m ≤ s.gcodeLines.length ∧
      (evs.foldl Event.run (playGCode s)).currentLine = (m : Int) ∧
      (evs.foldl Event.run (playGCode s)).sendAttempts
        = s.sendAttempts ++ (List.range m).map Int.ofNat ∧
      (evs.foldl Event.run (playGCode s)).written
        = s.written ++ wireOf s.serialOpen s.gcodeLines (List.range m) ∧
      ∀ str : QString, (evs.foldl Event.run (playGCode s)).paused = true →
        (notification (evs.foldl Event.run (playGCode s)) str).sendAttempts
          = (evs.foldl Event.run (playGCode s)).sendAttempts ∧
        (notification (evs.foldl Event.run (playGCode s)) str).written
          = (evs.foldl Event.run (playGCode s)).written ∧
        (notification (evs.foldl Event.run (playGCode s)) str).currentLine
          = (evs.foldl Event.run (playGCode s)).currentLine := by
  obtain ⟨m, -, -, h1, hm, hc, ha, hw⟩ :=
    events_streamed _ _ _ _ evs 1 _ (playGCode_streamed s h)
  refine ⟨m, h1, hm, hc, ha, hw, ?_⟩
  intro str hp
  obtain ⟨n1, -, n3, n4, -, -, -⟩ := notification_idle _ str (Or.inl hp)
  exact ⟨n3, n4, n1⟩

/-! ## The cursor invariant -/

theorem scanLine_bestLine (tx ty tz : ℚ) (st : Scan) (i : Nat) (line : QString) :
    (scanLine tx ty tz st i line).bestLine = st.bestLine ∨
    (scanLine tx ty tz st i line).bestLine = (i : Int) := by
  unfold scanLine
  split
  · simp only []
    split
    · right; rfl
    · left; rfl
  · left; rfl

theorem scanUpTo_bestLine_range (lines : List QString) (tx ty tz : ℚ) (n : Nat) :
    (scanUpTo lines tx ty tz n).bestLine = -1 ∨
    (0 ≤ (scanUpTo lines tx ty tz n).bestLine ∧
      (scanUpTo lines tx ty tz n).bestLine < (n : Int)) := by
  induction n with
  | zero => left; rfl
  | succ n ih =>
    rw [scanUpTo]
    rcases scanLine_bestLine tx ty tz (scanUpTo lines tx ty tz n) n (lines.getD n []) with h | h
    · rw [h]
      rcases ih with ih | ih
      · left; exact ih
      · right; exact ⟨ih.1, by push_cast; omega⟩
    · rw [h]; right; exact ⟨by omega, by push_cast; omega⟩

theorem findClosestGCodeLine_range (s : GRBLSender) (tx ty tz : ℚ) :
    findClosestGCodeLine s tx ty tz = -1 ∨
    (0 ≤ findClosestGCodeLine s tx ty tz ∧
      findClosestGCodeLine s tx ty tz < (s.gcodeLines.length : Int)) :=
  scanUpTo_bestLine_range s.gcodeLines tx ty tz s.gcodeLines.length

theorem sendNextLine_inv (s : GRBLSender) (h : CursorInv s) : CursorInv (sendNextLine s) := by
  by_cases hb : s.paused = true ∨ (s.gcodeLines.length : Int) ≤ s.currentLine
  · rw [sendNextLine_blocked s hb]; exact h
  · have hp : s.paused = false := by
      cases hq : s.paused with
      | false => rfl
      | true => exact absurd (Or.inl hq) hb
    have hlt : s.currentLine < (s.gcodeLines.length : Int) := by
      have : ¬ ((s.gcodeLines.length : Int) ≤ s.currentLine) := fun h => hb (Or.inr h)
      omega
    obtain ⟨h0, -, -⟩ := h
    obtain ⟨c, hc⟩ := Int.eq_ofNat_of_zero_le h0
    have hltn : c < s.gcodeLines.length := by rw [hc] at hlt; exact_mod_cast hlt
    obtain ⟨f1, f2, -, -, f5, -, -⟩ := sendNextLine_fires s c hp hc hltn
    unfold CursorInv
    rw [f1, f2, f5]
    refine ⟨by omega, by push_cast; omega, Or.inr ⟨by omega, by omega⟩⟩

/-- Setting the cursor to an index inside the program (and unpausing, and
logging) before `sendNextLine` keeps the invariant. -/
theorem recoverTo_inv (s : GRBLSender) (i : Int) (lg : List QString)
    (h0 : 0 ≤ i) (h1 : i < (s.gcodeLines.length : Int)) (h : CursorInv s) :
    CursorInv (sendNextLine { s with currentLine := i, log := lg, paused := false }) := by
  apply sendNextLine_inv
  exact ⟨h0, le_of_lt h1, h.2.2⟩

theorem event_inv (s : GRBLSender) (e : Event) (h : CursorInv s) : CursorInv (e.run s) := by
  cases e with
  | pause => exact h
  | resume => exact sendNextLine_inv _ h
  | notify str =>
    obtain ⟨hg, hcur, hls, -, -, -, -, -⟩ := readSerial_frame s str
    have hr : CursorInv (readSerial s str).1 := by
      unfold CursorInv; rw [hg, hcur, hls]; exact h
    show CursorInv (notification s str)
    unfold notification
    split
    · exact sendNextLine_inv _ hr
    · exact hr
  | timeout => exact sendNextLine_inv _ h

theorem op_inv (s : GRBLSender) (op : Op) (h : CursorInv s) : CursorInv (op.run s) := by
  cases op with
  | load fileName file =>
    show CursorInv (loadGCode s fileName file)
    unfold loadGCode
    split
    · exact h
    · cases file with
      | none => exact h
      | some raw => exact ⟨le_refl 0, by simp, Or.inl rfl⟩
  | play =>
    show CursorInv (playGCode s)
    unfold playGCode
    split
    · exact h
    · apply sendNextLine_inv
      exact ⟨le_refl 0, by simp, h.2.2⟩
  | stream e => exact event_inv s e h
  | recoverLast =>
    show CursorInv (recoverPosition2 s)
    unfold recoverPosition2
    split
    · rename_i hc
      simp only [Bool.and_eq_true, decide_eq_true_eq] at hc
      exact recoverTo_inv s s.lastSentLine _ hc.1 hc.2 h
    · exact h
  | recoverNearest rx okX ry okY rz okZ =>
    show CursorInv (recoverPosition s rx okX ry okY rz okZ)
    unfold recoverPosition
    split
    · exact h
    · simp only []
      split
      · rename_i hc
        rcases findClosestGCodeLine_range s rx ry rz with hr | hr
        · rw [hr] at hc; exact absurd hc (by decide)
        · exact recoverTo_inv s _ _ hr.1 hr.2 h
      · exact h

/-- Claim C8.  From any state with an empty program, cursor 0 and no last-sent
line (whatever its other members, the paused flag included), every finite sequence of load (successful, failed or
cancelled), play, pause, resume, channel-notification, resume-from-last-sent
and nearest-position recovery operations leads to a state with
`0 ≤ currentLine ≤ gcodeLines.size()` and `lastSentLine` either `-1` or in
`[0, gcodeLines.size())`. -/
theorem cursor_invariant_reachable (s0 : GRBLSender) (ops : List Op)
    (hg : s0.gcodeLines = []) (hc : s0.currentLine = 0) (hl : s0.lastSentLine = -1) :
    0 ≤ (ops.foldl Op.run s0).currentLine ∧
    (ops.foldl Op.run s0).currentLine ≤ ((ops.foldl Op.run s0).gcodeLines.length : Int) ∧
    ((ops.foldl Op.run s0).lastSentLine = -1 ∨
      (0 ≤ (ops.foldl Op.run s0).lastSentLine ∧
        (ops.foldl Op.run s0).lastSentLine < ((ops.foldl Op.run s0).gcodeLines.length : Int))) := by
  have h0 : CursorInv s0 := by
    unfold CursorInv; rw [hc, hl, hg]; exact ⟨le_refl 0, le_refl 0, Or.inl rfl⟩
  clear hg hc hl
  induction ops generalizing s0 with
  | nil => exact h0
  | cons op rest ih => exact ih (op.run s0) (op_inv s0 op h0)

/-! ## Concrete checks of the playback theorems, the closed port, streaming without play -/

theorem notifications_advance_cursor_witness :
    (demoMid.paused = false ∧ demoMid.currentLine = ((1 : Nat) : Int) ∧
      1 ≤ demoMid.gcodeLines.length) ∧
    (["ok".toList, "ok".toList, "ok".toList].foldl notification
        demoMid).currentLine = 3 ∧
    (["ok".toList, "ok".toList, "ok".toList].foldl notification
        demoMid).sendAttempts = [1, 2] ∧
    (["ok".toList, "ok".toList, "ok".toList].foldl notification
        demoMid).written = [] :=
  ⟨⟨rfl, rfl, by decide⟩,
    notifications_advance_cursor ["ok".toList, "ok".toList, "ok".toList]
      demoMid 1 rfl rfl (by decide)⟩

theorem pause_resume_streams_in_order_witness :
    demoOpen.gcodeLines ≠ [] ∧
    ∃ m : Nat, 1 ≤ m ∧ m ≤ demoOpen.gcodeLines.length ∧
      ([Event.notify "ok".toList, Event.pause, Event.notify "ok".toList,
          Event.resume].foldl Event.run (playGCode demoOpen)).currentLine = (m : Int) ∧
      ([Event.notify "ok".toList, Event.pause, Event.notify "ok".toList,
          Event.resume].foldl Event.run (playGCode demoOpen)).sendAttempts
        = demoOpen.sendAttempts ++ (List.range m).map Int.ofNat :=
  ⟨by decide,
    (pause_resume_streams_in_order demoOpen
      [Event.notify "ok".toList, Event.pause, Event.notify "ok".toList, Event.resume]
      (by decide)).imp fun _ h => ⟨h.1, h.2.1, h.2.2.1, h.2.2.2.1⟩⟩

theorem cursor_invariant_reachable_witness :
    (initial.gcodeLines = [] ∧ initial.currentLine = 0 ∧ initial.lastSentLine = -1) ∧
    0 ≤ ([Op.load "a.nc".toList (some ["G0 X1".toList, " ".toList, "G1 Y2".toList]),
          Op.play, Op.recoverLast].foldl Op.run initial).currentLine :=
  ⟨⟨rfl, rfl, rfl⟩,
    (cursor_invariant_reachable initial
      [Op.load "a.nc".toList (some ["G0 X1".toList, " ".toList, "G1 Y2".toList]),
        Op.play, Op.recoverLast] rfl rfl rfl).1⟩

/-- Claim C9, as the code has it.  A send attempted while the port is not open
leaves the whole state as it was: no byte is written and nothing is appended
to the log. -/
theorem sendCommand_closed_is_silent (s : GRBLSender) (cmd : QString)
    (h : s.serialOpen = false) : sendCommand s cmd = s := by
  unfold sendCommand
  simp [h]

theorem sendCommand_closed_is_silent_witness :
    initial.serialOpen = false ∧ sendCommand initial "G0 X1".toList = initial :=
  ⟨rfl, sendCommand_closed_is_silent initial "G0 X1".toList rfl⟩

/-- Claim C9 as stated fails: with the port closed, `sendCommand` appends no
line to the log. -/
theorem sendCommand_closed_logs_nothing :
    initial.serialOpen = false ∧
    ¬ ∃ line : QString, (sendCommand initial "G0 X1".toList).log = initial.log ++ [line] := by
  refine ⟨rfl, ?_⟩
  rintro ⟨line, h⟩
  simp [sendCommand, initial] at h

/-- Claim C10.  Right after a successful load of a non-empty program, with
`paused = false` and no `play()` issued, one channel notification attempts
line 0 (and writes it when the port is open), leaving the cursor at 1 and the
last-sent index at 0. -/
theorem notification_streams_without_play (s : GRBLSender) (fileName : QString)
    (raw : List QString) (str : QString)
    (hf : fileName ≠ [])
    (hne : (loadGCode s fileName (some raw)).gcodeLines ≠ [])
    (hp : s.paused = false) :
    (loadGCode s fileName (some raw)).currentLine = 0 ∧
    (loadGCode s fileName (some raw)).lastSentLine = -1 ∧
    (notification (loadGCode s fileName (some raw)) str).currentLine = 1 ∧
    (notification (loadGCode s fileName (some raw)) str).lastSentLine = 0 ∧
    (notification (loadGCode s fileName (some raw)) str).sendAttempts
      = s.sendAttempts ++ [0] ∧
    (notification (loadGCode s fileName (some raw)) str).written
      = s.written ++
        wireOf s.serialOpen (loadGCode s fileName (some raw)).gcodeLines [0] := by
  have hemp : fileName.isEmpty = false := by
    cases fileName with
    | nil => exact absurd rfl hf
    | cons a l => rfl
  have hload : loadGCode s fileName (some raw) =
      { s with gcodeLines := (raw.map trimmed).filter (fun l => !l.isEmpty),
               log := s.log ++ ["Loaded ".toList ++
                 number ((raw.map trimmed).filter (fun l => !l.isEmpty)).length ++
                 " lines".toList],
               currentLine := 0, lastSentLine := -1 } := by
    unfold loadGCode
    rw [hemp]; rfl
  have hlen : 0 < (loadGCode s fileName (some raw)).gcodeLines.length :=
    List.length_pos.mpr hne
  have hp1 : (loadGCode s fileName (some raw)).paused = false := by rw [hload]; exact hp
  have hc1 : (loadGCode s fileName (some raw)).currentLine = ((0 : Nat) : Int) := by
    rw [hload]; rfl
  obtain ⟨n1, n2, n3, n4, -, -, -⟩ :=
    notification_fires (loadGCode s fileName (some raw)) str 0 hp1 hc1 hlen
  refine ⟨hc1, by rw [hload], n1, n2, ?_, ?_⟩
  · rw [n3, hload]; rfl
  · rw [n4]
    congr 1
    · rw [hload]
    · rw [hload]

theorem notification_streams_without_play_witness :
    ("a.nc".toList ≠ [] ∧
      (loadGCode initial "a.nc".toList (some ["G0 X1".toList, "".toList])).gcodeLines ≠ [] ∧
      initial.paused = false) ∧
    (notification (loadGCode initial "a.nc".toList (some ["G0 X1".toList, "".toList]))
      "<Idle>".toList).currentLine = 1 :=
  ⟨⟨by decide, by decide, rfl⟩,
    (notification_streams_without_play initial "a.nc".toList ["G0 X1".toList, "".toList]
      "<Idle>".toList (by decide) (by decide) rfl).2.2.1⟩

/-! ## Nearest-position recovery -/

theorem option_match_getD (o : Option ℚ) (d : ℚ) :
    (match o with
      | some v => v
      | none => d) = o.getD d := by
  cases o <;> rfl

theorem scanLine_motion (tx ty tz : ℚ) (st : Scan) (i : Nat) (line : QString)
    (hm : isMotion line = true) :
    (scanLine tx ty tz st i line).curX = (axisWord 'X' line).getD st.curX ∧
    (scanLine tx ty tz st i line).curY = (axisWord 'Y' line).getD st.curY ∧
    (scanLine tx ty tz st i line).curZ = (axisWord 'Z' line).getD st.curZ ∧
    ((sqDist ((axisWord 'X' line).getD st.curX, (axisWord 'Y' line).getD st.curY,
          (axisWord 'Z' line).getD st.curZ) tx ty tz < st.bestDist ∧
        (scanLine tx ty tz st i line).bestDist
          = sqDist ((axisWord 'X' line).getD st.curX, (axisWord 'Y' line).getD st.curY,
              (axisWord 'Z' line).getD st.curZ) tx ty tz ∧
        (scanLine tx ty tz st i line).bestLine = (i : Int)) ∨
      (st.bestDist ≤ sqDist ((axisWord 'X' line).getD st.curX,
          (axisWord 'Y' line).getD st.curY, (axisWord 'Z' line).getD st.curZ) tx ty tz ∧
        (scanLine tx ty tz st i line).bestDist = st.bestDist ∧
        (scanLine tx ty tz st i line).bestLine = st.bestLine)) := by
  unfold scanLine
  rw [if_pos hm]
  simp only [option_match_getD]
  split
  · rename_i h
    exact ⟨rfl, rfl, rfl, Or.inl ⟨h, rfl, rfl⟩⟩
  · rename_i h
    exact ⟨rfl, rfl, rfl, Or.inr ⟨not_lt.mp h, rfl, rfl⟩⟩

theorem scanLine_other (tx ty tz : ℚ) (st : Scan) (i : Nat) (line : QString)
    (hm : isMotion line = false) : scanLine tx ty tz st i line = st := by
  unfold scanLine
  simp [hm]

theorem scanUpTo_inv (lines : List QString) (tx ty tz : ℚ) (n : Nat) :
    ScanInv lines tx ty tz n (scanUpTo lines tx ty tz n) := by
  induction n with
  | zero =>
    exact ⟨rfl, le_refl _, fun j hj => absurd hj (Nat.not_lt_zero j), Or.inl ⟨rfl, rfl⟩⟩
  | succ n ih =>
    rw [scanUpTo]
    cases hm : isMotion (lines.getD n []) with
    | false =>
      rw [scanLine_other tx ty tz _ n _ hm]
      refine ⟨?_, ih.bound, ?_, ?_⟩
      · rw [simulatedPosition, hm]; exact ih.pos
      · intro j hj hmj
        rcases Nat.lt_succ_iff_lt_or_eq.mp hj with h | h
        · exact ih.lower j h hmj
        · rw [h, hm] at hmj; exact absurd hmj (by decide)
      · rcases ih.best with h | ⟨i, hi, h⟩
        · exact Or.inl h
        · exact Or.inr ⟨i, Nat.lt_succ_of_lt hi, h⟩
    | true =>
      obtain ⟨hx, hy, hz, hcase⟩ :=
        scanLine_motion tx ty tz (scanUpTo lines tx ty tz n) n (lines.getD n []) hm
      have hpos := ih.pos
      have hcx : (scanUpTo lines tx ty tz n).curX = (simulatedPosition lines n).1 := by
        rw [← hpos]
      have hcy : (scanUpTo lines tx ty tz n).curY = (simulatedPosition lines n).2.1 := by
        rw [← hpos]
      have hcz : (scanUpTo lines tx ty tz n).curZ = (simulatedPosition lines n).2.2 := by
        rw [← hpos]
      have hsim : simulatedPosition lines (n + 1) =
          ((axisWord 'X' (lines.getD n [])).getD (scanUpTo lines tx ty tz n).curX,
           (axisWord 'Y' (lines.getD n [])).getD (scanUpTo lines tx ty tz n).curY,
           (axisWord 'Z' (lines.getD n [])).getD (scanUpTo lines tx ty tz n).curZ) := by
        rw [simulatedPosition, if_pos hm, hcx, hcy, hcz]
      have hd : lineDist lines tx ty tz n =
          sqDist ((axisWord 'X' (lines.getD n [])).getD (scanUpTo lines tx ty tz n).curX,
           (axisWord 'Y' (lines.getD n [])).getD (scanUpTo lines tx ty tz n).curY,
           (axisWord 'Z' (lines.getD n [])).getD (scanUpTo lines tx ty tz n).curZ)
           tx ty tz := by
        rw [lineDist, hsim]
      rw [← hd] at hcase
      refine ⟨?_, ?_, ?_, ?_⟩
      · rw [hsim, hx, hy, hz]
      · rcases hcase with ⟨hlt, hbd, -⟩ | ⟨-, hbd, -⟩
        · rw [hbd]; exact le_trans (le_of_lt hlt) ih.bound
        · rw [hbd]; exact ih.bound
      · intro j hj hmj
        rcases hcase with ⟨hlt, hbd, -⟩ | ⟨hge, hbd, -⟩
        · rw [hbd]
          rcases Nat.lt_succ_iff_lt_or_eq.mp hj with h | h
          · exact le_trans (le_of_lt hlt) (ih.lower j h hmj)
          · rw [h]
        · rw [hbd]
          rcases Nat.lt_succ_iff_lt_or_eq.mp hj with h | h
          · exact ih.lower j h hmj
          · rw [h]; exact hge
      · rcases hcase with ⟨hlt, hbd, hbl⟩ | ⟨-, hbd, hbl⟩
        · refine Or.inr ⟨n, Nat.lt_succ_self n, hbl, hm, hbd, ?_, ?_⟩
          · rw [hbd]; exact lt_of_lt_of_le hlt ih.bound
          · intro j hj hmj
            rw [hbd]; exact lt_of_lt_of_le hlt (ih.lower j hj hmj)
        · rw [hbd, hbl]
          rcases ih.best with h | ⟨i, hi, h⟩
          · exact Or.inl h
          · exact Or.inr ⟨i, Nat.lt_succ_of_lt hi, h⟩

/-- Claim C3.  When `findClosestGCodeLine` returns an index `i ≥ 0`, line `i`
is a line of the program that begins with `G0` or `G1`; the squared distance
from the simulated position after it to the target is at most that of every
motion line of the program and strictly below that of every motion line
before it. -/
theorem findClosest_is_first_minimum (s : GRBLSender) (tx ty tz : ℚ) (i : Nat)
    (h : findClosestGCodeLine s tx ty tz = (i : Int)) :
    i < s.gcodeLines.length ∧
    isMotion (s.gcodeLines.getD i []) = true ∧
    (∀ j, j < s.gcodeLines.length → isMotion (s.gcodeLines.getD j []) = true →
      lineDist s.gcodeLines tx ty tz i ≤ lineDist s.gcodeLines tx ty tz j) ∧
    (∀ j, j < i → isMotion (s.gcodeLines.getD j []) = true →
      lineDist s.gcodeLines tx ty tz i < lineDist s.gcodeLines tx ty tz j) := by
  have inv := scanUpTo_inv s.gcodeLines tx ty tz s.gcodeLines.length
  unfold findClosestGCodeLine at h
  rcases inv.best with ⟨hb, -⟩ | ⟨k, hk, hbl, hmk, hbd, -, hfirst⟩
  · rw [hb] at h; omega
  · have hki : k = i := by rw [hbl] at h; exact_mod_cast h
    subst hki
    refine ⟨hk, hmk, ?_, ?_⟩
    · intro j hj hmj
      rw [← hbd]; exact inv.lower j hj hmj
    · intro j hj hmj
      rw [← hbd]; exact hfirst j hj hmj

theorem findClosest_is_first_minimum_witness :
    findClosestGCodeLine demoOpen 10 10 0 = ((1 : Nat) : Int) ∧
    (1 < demoOpen.gcodeLines.length ∧
      isMotion (demoOpen.gcodeLines.getD 1 []) = true ∧
      (∀ j, j < demoOpen.gcodeLines.length → isMotion (demoOpen.gcodeLines.getD j []) = true →
        lineDist demoOpen.gcodeLines 10 10 0 1 ≤ lineDist demoOpen.gcodeLines 10 10 0 j) ∧
      (∀ j, j < 1 → isMotion (demoOpen.gcodeLines.getD j []) = true →
        lineDist demoOpen.gcodeLines 10 10 0 1 < lineDist demoOpen.gcodeLines 10 10 0 j)) :=
  ⟨by decide!, findClosest_is_first_minimum demoOpen 10 10 0 1 (by decide!)⟩

/-- Moving the cursor to an index inside the program, unpausing and running
`sendNextLine` attempts exactly that line. -/
theorem recoverTo_fires (s : GRBLSender) (i : Nat) (lg : List QString)
    (hi : i < s.gcodeLines.length) :
    (sendNextLine { s with currentLine := (i : Int), log := lg, paused := false }).lastSentLine
      = (i : Int) ∧
    (sendNextLine { s with currentLine := (i : Int), log := lg, paused := false }).currentLine
      = (i : Int) + 1 ∧
    (sendNextLine { s with currentLine := (i : Int), log := lg, paused := false }).paused
      = false ∧
    (sendNextLine { s with currentLine := (i : Int), log := lg, paused := false }).sendAttempts
      = s.sendAttempts ++ [(i : Int)] ∧
    (sendNextLine { s with currentLine := (i : Int), log := lg, paused := false }).written
      = s.written ++ wireOf s.serialOpen s.gcodeLines [i] ∧
    (sendNextLine { s with currentLine := (i : Int), log := lg, paused := false }).gcodeLines
      = s.gcodeLines := by
  obtain ⟨f1, f2, f3, f4, f5, f6, -⟩ := sendNextLine_fires
    { s with currentLine := (i : Int), log := lg, paused := false } i rfl rfl hi
  exact ⟨f2, by rw [f1]; push_cast; rfl, f6, f3, f4, f5⟩

/-- Claim C5 fails on the code.  The program `["G0 X50000"]` has a motion line,
the target `(0, 0, 0)` lies in the dialog range, and `findClosestGCodeLine`
still returns `-1`: the squared distance `2500000000` of the only motion line
is not below the initial `bestDist` of `1e9`. -/
theorem findClosest_misses_far_motion_line :
    isMotion ("G0 X50000".toList) = true ∧
    lineDist ["G0 X50000".toList] 0 0 0 0 = 2500000000 ∧
    findClosestGCodeLine { initial with gcodeLines := ["G0 X50000".toList] } 0 0 0 = -1 := by
  refine ⟨by decide, by decide!, by decide!⟩

/-- What the code does for claim C5: a line is found exactly when some motion
line lies at a squared distance below `1e9` from the target. -/
theorem findClosest_found_iff (s : GRBLSender) (tx ty tz : ℚ) :
    0 ≤ findClosestGCodeLine s tx ty tz ↔
    ∃ j, j < s.gcodeLines.length ∧ isMotion (s.gcodeLines.getD j []) = true ∧
      lineDist s.gcodeLines tx ty tz j < 1000000000 := by
  have inv := scanUpTo_inv s.gcodeLines tx ty tz s.gcodeLines.length
  unfold findClosestGCodeLine
  constructor
  · intro h
    rcases inv.best with ⟨hb, -⟩ | ⟨k, hk, -, hmk, hbd, hlt, -⟩
    · rw [hb] at h; omega
    · exact ⟨k, hk, hmk, by rw [← hbd]; exact hlt⟩
  · rintro ⟨j, hj, hmj, hlt⟩
    rcases inv.best with ⟨-, hb⟩ | ⟨k, -, hbl, -, -, -, -⟩
    · have := inv.lower j hj hmj
      rw [hb] at this
      exact absurd hlt (not_lt.mpr this)
    · rw [hbl]; omega

/-! ## Nearest-position recovery in binary32 arithmetic -/

theorem pow2_nonneg (k : Int) : 0 ≤ pow2 k := by
  unfold pow2
  split
  · exact Nat.cast_nonneg _
  · exact div_nonneg zero_le_one (Nat.cast_nonneg _)

theorem roundTo_nonneg (p : Nat) (emin emax : Int) (q : ℚ) (h : 0 ≤ q) :
    F32.NonNeg (roundTo p emin emax q) := by
  unfold roundTo
  split
  · exact Or.inr (Or.inr ⟨0, le_refl 0, rfl⟩)
  · split
    · right; left
      rw [decide_eq_false (not_lt.mpr h)]
    · split
      · rename_i hneg
        exact absurd hneg (not_lt.mpr h)
      · exact Or.inr (Or.inr ⟨_, mul_nonneg (Nat.cast_nonneg _) (pow2_nonneg _), rfl⟩)

theorem round_zero : F32.round 0 = F32.fin 0 := by
  unfold F32.round roundTo
  rw [if_pos rfl]

theorem F32.mul_self_nonNeg (x : F32) : F32.NonNeg (F32.mul x x) := by
  cases x with
  | fin a => exact roundTo_nonneg _ _ _ _ (mul_self_nonneg a)
  | inf s =>
    right; left
    cases s <;> rfl
  | nan => left; rfl

theorem F32.add_nonNeg (a b : F32) (ha : F32.NonNeg a) (hb : F32.NonNeg b) :
    F32.NonNeg (F32.add a b) := by
  rcases ha with ha | ha | ⟨r, hr, ha⟩ <;> rcases hb with hb | hb | ⟨t, ht, hb⟩ <;> subst ha <;>
    subst hb
  · left; rfl
  · left; rfl
  · left; rfl
  · left; rfl
  · right; left; rfl
  · right; left; rfl
  · left; rfl
  · right; left; rfl
  · exact roundTo_nonneg _ _ _ _ (add_nonneg hr ht)

theorem distF_nonNeg (x y z tx ty tz : F32) : F32.NonNeg (distF x y z tx ty tz) := by
  unfold distF
  exact F32.add_nonNeg _ _ (F32.add_nonNeg _ _ (F32.mul_self_nonNeg _) (F32.mul_self_nonNeg _))
    (F32.mul_self_nonNeg _)

theorem distF_self (a b c : ℚ) :
    distF (F32.fin a) (F32.fin b) (F32.fin c) (F32.fin a) (F32.fin b) (F32.fin c)
      = F32.fin 0 := by
  simp only [distF, F32.sub, F32.mul, F32.add, sub_self, round_zero, mul_zero, add_zero]

theorem F32.not_lt_zero_of_nonNeg (v : F32) (h : F32.NonNeg v) :
    F32.lt v (F32.fin 0) = false := by
  rcases h with h | h | ⟨r, hr, h⟩ <;> subst h
  · rfl
  · rfl
  · exact decide_eq_false (not_lt.mpr hr)

/-- A value that is selected (it is below the best so far) and is not zero lies
strictly above zero. -/
theorem F32.pos_of_selected (v best : F32) (h : F32.NonNeg v) (hne : v ≠ F32.fin 0)
    (hsel : F32.lt v best = true) : F32.lt (F32.fin 0) v = true := by
  rcases h with h | h | ⟨r, hr, h⟩ <;> subst h
  · exact absurd hsel (by simp [F32.lt])
  · cases best <;> simp [F32.lt] at hsel
  · have hr0 : r ≠ 0 := fun e => hne (by rw [e])
    exact decide_eq_true (lt_of_le_of_ne hr (Ne.symm hr0))

theorem option_map_getD (conv : QString → F32) (o : Option QString) (d : F32) :
    (match o with
      | some c => conv c
      | none => d) = (o.map conv).getD d := by
  cases o <;> rfl

theorem scanLineF_motion (conv : QString → F32) (tx ty tz : F32) (st : ScanF) (i : Nat)
    (line : QString) (hm : isMotion line = true) :
    (scanLineF conv tx ty tz st i line).curX
      = ((indexIn (axisMatchAt 'X') line).map conv).getD st.curX ∧
    (scanLineF conv tx ty tz st i line).curY
      = ((indexIn (axisMatchAt 'Y') line).map conv).getD st.curY ∧
    (scanLineF conv tx ty tz st i line).curZ
      = ((indexIn (axisMatchAt 'Z') line).map conv).getD st.curZ ∧
    ((F32.lt (distF (((indexIn (axisMatchAt 'X') line).map conv).getD st.curX)
          (((indexIn (axisMatchAt 'Y') line).map conv).getD st.curY)
          (((indexIn (axisMatchAt 'Z') line).map conv).getD st.curZ) tx ty tz) st.bestDist = true ∧
        (scanLineF conv tx ty tz st i line).bestDist
          = distF (((indexIn (axisMatchAt 'X') line).map conv).getD st.curX)
              (((indexIn (axisMatchAt 'Y') line).map conv).getD st.curY)
              (((indexIn (axisMatchAt 'Z') line).map conv).getD st.curZ) tx ty tz ∧
        (scanLineF conv tx ty tz st i line).bestLine = (i : Int)) ∨
      (F32.lt (distF (((indexIn (axisMatchAt 'X') line).map conv).getD st.curX)
          (((indexIn (axisMatchAt 'Y') line).map conv).getD st.curY)
          (((indexIn (axisMatchAt 'Z') line).map conv).getD st.curZ) tx ty tz) st.bestDist = false ∧
        (scanLineF conv tx ty tz st i line).bestDist = st.bestDist ∧
        (scanLineF conv tx ty tz st i line).bestLine = st.bestLine)) := by
  unfold scanLineF
  rw [if_pos hm]
  simp only [option_map_getD]
  split
  · rename_i h
    exact ⟨rfl, rfl, rfl, Or.inl ⟨h, rfl, rfl⟩⟩
  · rename_i h
    exact ⟨rfl, rfl, rfl, Or.inr ⟨Bool.eq_false_iff.mpr h, rfl, rfl⟩⟩

theorem scanLineF_other (conv : QString → F32) (tx ty tz : F32) (st : ScanF) (i : Nat)
    (line : QString) (hm : isMotion line = false) : scanLineF conv tx ty tz st i line = st := by
  unfold scanLineF
  simp [hm]

/-- The `float` locals `curX`, `curY`, `curZ` of the scan are the simulated
position. -/
theorem scanUpToF_pos (conv : QString → F32) (lines : List QString) (tx ty tz : F32) (n : Nat) :
    ((scanUpToF conv lines tx ty tz n).curX, (scanUpToF conv lines tx ty tz n).curY,
      (scanUpToF conv lines tx ty tz n).curZ) = simulatedPositionF conv lines n := by
  induction n with
  | zero => rfl
  | succ n ih =>
    rw [scanUpToF, simulatedPositionF]
    cases hm : isMotion (lines.getD n []) with
    | false =>
      rw [scanLineF_other _ _ _ _ _ _ _ hm]
      simpa using ih
    | true =>
      obtain ⟨hx, hy, hz, -⟩ :=
        scanLineF_motion conv tx ty tz (scanUpToF conv lines tx ty tz n) n (lines.getD n []) hm
      have hcx : (scanUpToF conv lines tx ty tz n).curX = (simulatedPositionF conv lines n).1 := by
        rw [← ih]
      have hcy : (scanUpToF conv lines tx ty tz n).curY
          = (simulatedPositionF conv lines n).2.1 := by
        rw [← ih]
      have hcz : (scanUpToF conv lines tx ty tz n).curZ
          = (simulatedPositionF conv lines n).2.2 := by
        rw [← ih]
      rw [hx, hy, hz, hcx, hcy, hcz]
      simp

/-- The distance the scan computes at the motion line `n` is the distance of
the simulated position after that line. -/
theorem scanF_dist_eq (conv : QString → F32) (lines : List QString) (tx ty tz : F32) (n : Nat)
    (hm : isMotion (lines.getD n []) = true) :
    distF
      (((indexIn (axisMatchAt 'X') (lines.getD n [])).map conv).getD
        (scanUpToF conv lines tx ty tz n).curX)
      (((indexIn (axisMatchAt 'Y') (lines.getD n [])).map conv).getD
        (scanUpToF conv lines tx ty tz n).curY)
      (((indexIn (axisMatchAt 'Z') (lines.getD n [])).map conv).getD
        (scanUpToF conv lines tx ty tz n).curZ) tx ty tz
      = lineDistF conv lines tx ty tz n := by
  have ih := scanUpToF_pos conv lines tx ty tz n
  have hcx : (scanUpToF conv lines tx ty tz n).curX = (simulatedPositionF conv lines n).1 := by
    rw [← ih]
  have hcy : (scanUpToF conv lines tx ty tz n).curY = (simulatedPositionF conv lines n).2.1 := by
    rw [← ih]
  have hcz : (scanUpToF conv lines tx ty tz n).curZ = (simulatedPositionF conv lines n).2.2 := by
    rw [← ih]
  rw [lineDistF, simulatedPositionF, if_pos hm, hcx, hcy, hcz]

/-- Before the line `i`, the best distance of the scan lies strictly above
zero when no earlier motion line is at distance zero. -/
theorem scanUpToF_best_pos (conv : QString → F32) (lines : List QString) (tx ty tz : F32)
    (i n : Nat) (hn : n ≤ i)
    (hfirst : ∀ j, j < i → isMotion (lines.getD j []) = true →
      lineDistF conv lines tx ty tz j ≠ F32.fin 0) :
    F32.lt (F32.fin 0) (scanUpToF conv lines tx ty tz n).bestDist = true := by
  induction n with
  | zero =>
    show decide ((0 : ℚ) < 1000000000) = true
    exact decide_eq_true (by norm_num)
  | succ n ih =>
    have hlt : n < i := hn
    rw [scanUpToF]
    cases hm : isMotion (lines.getD n []) with
    | false =>
      rw [scanLineF_other _ _ _ _ _ _ _ hm]
      exact ih (Nat.le_of_lt hlt)
    | true =>
      obtain ⟨-, -, -, hcase⟩ :=
        scanLineF_motion conv tx ty tz (scanUpToF conv lines tx ty tz n) n (lines.getD n []) hm
      rw [scanF_dist_eq conv lines tx ty tz n hm] at hcase
      rcases hcase with ⟨hsel, hbd, -⟩ | ⟨-, hbd, -⟩
      · rw [hbd]
        exact F32.pos_of_selected _ _ (distF_nonNeg _ _ _ _ _ _) (hfirst n hlt hm) hsel
      · rw [hbd]
        exact ih (Nat.le_of_lt hlt)

/-- Once the scan holds a line at distance zero, no later line replaces it. -/
theorem scanUpToF_keeps_zero (conv : QString → F32) (lines : List QString) (tx ty tz : F32)
    (i : Int) (n k : Nat)
    (hl : (scanUpToF conv lines tx ty tz n).bestLine = i)
    (hd : (scanUpToF conv lines tx ty tz n).bestDist = F32.fin 0) :
    (scanUpToF conv lines tx ty tz (n + k)).bestLine = i ∧
    (scanUpToF conv lines tx ty tz (n + k)).bestDist = F32.fin 0 := by
  induction k with
  | zero => exact ⟨hl, hd⟩
  | succ k ih =>
    rw [← Nat.add_assoc, scanUpToF]
    cases hm : isMotion (lines.getD (n + k) []) with
    | false => rw [scanLineF_other _ _ _ _ _ _ _ hm]; exact ih
    | true =>
      obtain ⟨-, -, -, hcase⟩ :=
        scanLineF_motion conv tx ty tz (scanUpToF conv lines tx ty tz (n + k)) (n + k) _ hm
      rcases hcase with ⟨hsel, -, -⟩ | ⟨-, hbd, hbl⟩
      · rw [ih.2, F32.not_lt_zero_of_nonNeg _ (distF_nonNeg _ _ _ _ _ _)] at hsel
        exact absurd hsel (by decide)
      · rw [hbd, hbl]; exact ih

/-- In `float` arithmetic the scan selects the motion line whose simulated
position is the target, when no earlier motion line is at computed distance
zero. -/
theorem findClosestF_exact (conv : QString → F32) (s : GRBLSender) (tx ty tz : ℚ) (i : Nat)
    (hi : i < s.gcodeLines.length)
    (hm : isMotion (s.gcodeLines.getD i []) = true)
    (ht : simulatedPositionF conv s.gcodeLines (i + 1) = (F32.fin tx, F32.fin ty, F32.fin tz))
    (hfirst : ∀ j, j < i → isMotion (s.gcodeLines.getD j []) = true →
      lineDistF conv s.gcodeLines (F32.fin tx) (F32.fin ty) (F32.fin tz) j ≠ F32.fin 0) :
    findClosestGCodeLineF conv s (F32.fin tx) (F32.fin ty) (F32.fin tz) = (i : Int) ∧
    (scanUpToF conv s.gcodeLines (F32.fin tx) (F32.fin ty) (F32.fin tz)
      s.gcodeLines.length).bestDist = F32.fin 0 := by
  have hzero : lineDistF conv s.gcodeLines (F32.fin tx) (F32.fin ty) (F32.fin tz) i
      = F32.fin 0 := by
    rw [lineDistF, ht]; exact distF_self tx ty tz
  have hpos := scanUpToF_best_pos conv s.gcodeLines (F32.fin tx) (F32.fin ty) (F32.fin tz)
    i i (Nat.le_refl i) hfirst
  have hstep :
      (scanUpToF conv s.gcodeLines (F32.fin tx) (F32.fin ty) (F32.fin tz) (i + 1)).bestLine
        = (i : Int) ∧
      (scanUpToF conv s.gcodeLines (F32.fin tx) (F32.fin ty) (F32.fin tz) (i + 1)).bestDist
        = F32.fin 0 := by
    rw [scanUpToF]
    obtain ⟨-, -, -, hcase⟩ := scanLineF_motion conv (F32.fin tx) (F32.fin ty) (F32.fin tz)
      (scanUpToF conv s.gcodeLines (F32.fin tx) (F32.fin ty) (F32.fin tz) i) i _ hm
    rw [scanF_dist_eq conv s.gcodeLines _ _ _ i hm, hzero] at hcase
    rcases hcase with ⟨-, hbd, hbl⟩ | ⟨hnot, -, -⟩
    · exact ⟨hbl, hbd⟩
    · rw [hpos] at hnot
      exact absurd hnot (by decide)
  obtain ⟨k, hk⟩ : ∃ k, s.gcodeLines.length = (i + 1) + k :=
    ⟨s.gcodeLines.length - (i + 1), by omega⟩
  have hfin := scanUpToF_keeps_zero conv s.gcodeLines (F32.fin tx) (F32.fin ty) (F32.fin tz)
    (i : Int) (i + 1) k hstep.1 hstep.2
  unfold findClosestGCodeLineF
  rw [hk]
  exact hfin

/-- Claim C4, as the code has it.  Coordinates are the 32-bit `float` values
of the source, with every operation rounded.  If the recovery target is the
simulated position after the motion line `i` and no earlier motion line is at
a computed squared distance of zero from the target, then
`findClosestGCodeLine` returns `i` at squared distance 0, and `recoverPosition`
(all three dialogs accepted) sets the cursor to `i`, unpauses and attempts
`program[i]` next (writing it when the port is open), leaving
`lastSentLine = i` and `currentLine = i + 1`.  The conversion `conv` of a
captured text to `float` is arbitrary. -/
theorem recoverPosition_exact_target_float (conv : QString → F32) (s : GRBLSender)
    (tx ty tz : ℚ) (i : Nat)
    (hi : i < s.gcodeLines.length)
    (hm : isMotion (s.gcodeLines.getD i []) = true)
    (ht : simulatedPositionF conv s.gcodeLines (i + 1) = (F32.fin tx, F32.fin ty, F32.fin tz))
    (hfirst : ∀ j, j < i → isMotion (s.gcodeLines.getD j []) = true →
      lineDistF conv s.gcodeLines (F32.fin tx) (F32.fin ty) (F32.fin tz) j ≠ F32.fin 0) :
    findClosestGCodeLineF conv s (F32.fin tx) (F32.fin ty) (F32.fin tz) = (i : Int) ∧
    (scanUpToF conv s.gcodeLines (F32.fin tx) (F32.fin ty) (F32.fin tz)
      s.gcodeLines.length).bestDist = F32.fin 0 ∧
    (recoverPositionF conv s (F32.fin tx) true (F32.fin ty) true (F32.fin tz) true).lastSentLine
      = (i : Int) ∧
    (recoverPositionF conv s (F32.fin tx) true (F32.fin ty) true (F32.fin tz) true).currentLine
      = (i : Int) + 1 ∧
    (recoverPositionF conv s (F32.fin tx) true (F32.fin ty) true (F32.fin tz) true).paused
      = false ∧
    (recoverPositionF conv s (F32.fin tx) true (F32.fin ty) true (F32.fin tz) true).sendAttempts
      = s.sendAttempts ++ [(i : Int)] ∧
    (recoverPositionF conv s (F32.fin tx) true (F32.fin ty) true (F32.fin tz) true).written
      = s.written ++ wireOf s.serialOpen s.gcodeLines [i] ∧
    (recoverPositionF conv s (F32.fin tx) true (F32.fin ty) true (F32.fin tz) true).gcodeLines
      = s.gcodeLines := by
  obtain ⟨hfc, hbd⟩ := findClosestF_exact conv s tx ty tz i hi hm ht hfirst
  refine ⟨hfc, hbd, ?_⟩
  have hrec : recoverPositionF conv s (F32.fin tx) true (F32.fin ty) true (F32.fin tz) true =
      sendNextLine { s with currentLine := (i : Int),
                            log := s.log ++ [recoveringLine { s with currentLine := (i : Int) }],
                            paused := false } := by
    unfold recoverPositionF
    simp [hfc]
  rw [hrec]
  exact recoverTo_fires s i _ hi

theorem recoverPosition_exact_target_float_witness :
    (1 < demoOpen.gcodeLines.length ∧
      isMotion (demoOpen.gcodeLines.getD 1 []) = true ∧
      simulatedPositionF toFloatIEEE demoOpen.gcodeLines (1 + 1)
        = (F32.fin 10, F32.fin 10, F32.fin 0) ∧
      lineDistF toFloatIEEE demoOpen.gcodeLines (F32.fin 10) (F32.fin 10) (F32.fin 0) 0
        = F32.fin 100) ∧
    findClosestGCodeLineF toFloatIEEE demoOpen (F32.fin 10) (F32.fin 10) (F32.fin 0) = 1 ∧
    (scanUpToF toFloatIEEE demoOpen.gcodeLines (F32.fin 10) (F32.fin 10) (F32.fin 0)
      demoOpen.gcodeLines.length).bestDist = F32.fin 0 ∧
    (recoverPositionF toFloatIEEE demoOpen (F32.fin 10) true (F32.fin 10) true (F32.fin 0)
      true).lastSentLine = 1 ∧
    (recoverPositionF toFloatIEEE demoOpen (F32.fin 10) true (F32.fin 10) true (F32.fin 0)
      true).currentLine = 1 + 1 ∧
    (recoverPositionF toFloatIEEE demoOpen (F32.fin 10) true (F32.fin 10) true (F32.fin 0)
      true).paused = false ∧
    (recoverPositionF toFloatIEEE demoOpen (F32.fin 10) true (F32.fin 10) true (F32.fin 0)
      true).sendAttempts = [1] ∧
    (recoverPositionF toFloatIEEE demoOpen (F32.fin 10) true (F32.fin 10) true (F32.fin 0)
      true).written = ["G0 X10 Y10\n".toList] ∧
    (recoverPositionF toFloatIEEE demoOpen (F32.fin 10) true (F32.fin 10) true (F32.fin 0)
      true).gcodeLines = demoProgram :=
  ⟨⟨by decide, by decide, by decide!, by decide!⟩,
    recoverPosition_exact_target_float toFloatIEEE demoOpen 10 10 0 1 (by decide) (by decide)
      (by decide!)
      (fun j hj _ => by
        have h0 : j = 0 := by omega
        subst h0
        decide!)⟩

/-- Claim C4 as stated fails.  In `underflowProgram` the target `(0, 0, 0)` is
the simulated position after the motion line 1, and the only earlier motion
line has another simulated position (its `X` is the `float` nearest to
`1e-31`, not zero).  The square of that difference underflows to zero in
`float`, so line 0 is at computed squared distance 0 as well and, coming first,
is the line `findClosestGCodeLine` returns and `recoverPosition` transmits. -/
theorem recoverPosition_exact_target_underflow :
    isMotion (underflowProgram.getD 1 []) = true ∧
    simulatedPositionF toFloatIEEE underflowProgram (1 + 1)
      = (F32.fin 0, F32.fin 0, F32.fin 0) ∧
    isMotion (underflowProgram.getD 0 []) = true ∧
    simulatedPositionF toFloatIEEE underflowProgram (0 + 1)
      = (F32.fin (8507059 / 85070591730234615865843651857942052864), F32.fin 0, F32.fin 0) ∧
    simulatedPositionF toFloatIEEE underflowProgram (0 + 1)
      ≠ (F32.fin 0, F32.fin 0, F32.fin 0) ∧
    lineDistF toFloatIEEE underflowProgram (F32.fin 0) (F32.fin 0) (F32.fin 0) 0 = F32.fin 0 ∧
    findClosestGCodeLineF toFloatIEEE underflowOpen (F32.fin 0) (F32.fin 0) (F32.fin 0) = 0 ∧
    findClosestGCodeLineF toFloatIEEE underflowOpen (F32.fin 0) (F32.fin 0) (F32.fin 0) ≠ 1 ∧
    (recoverPositionF toFloatIEEE underflowOpen (F32.fin 0) true (F32.fin 0) true (F32.fin 0)
      true).written = ["G0 X0.0000000000000000000000000000001\n".toList] ∧
    (recoverPositionF toFloatIEEE underflowOpen (F32.fin 0) true (F32.fin 0) true (F32.fin 0)
      true).lastSentLine = 0 := by
  refine ⟨by decide, by decide!, by decide, by decide!, by decide!, by decide!, by decide!,
    by decide!, by decide!, by decide!⟩

/-! ## The settings dialog: maps and sorting -/

theorem mapInsert_keys (k v x : QString) (m : QMap) :
    x ∈ mapKeys (mapInsert k v m) ↔ x = k ∨ x ∈ mapKeys m := by
  induction m with
  | nil => simp [mapInsert, mapKeys]
  | cons p m ih =>
    obtain ⟨k', v'⟩ := p
    unfold mapInsert
    by_cases h1 : k < k'
    · simp [h1, mapKeys]
    · by_cases h2 : k = k'
      · simp [h1, h2, mapKeys]
      · simp only [h1, h2, if_false]
        unfold mapKeys at ih ⊢
        rw [List.map_cons, List.mem_cons, ih, List.map_cons, List.mem_cons]
        tauto

theorem lookup_cons (x k v : QString) (m : QMap) :
    List.lookup x ((k, v) :: m) = if x = k then some v else List.lookup x m := by
  by_cases h : x = k
  · subst h
    simp [List.lookup]
  · have hb : (x == k) = false := by simpa using h
    simp [List.lookup, hb, h]

theorem mapInsert_lookup (k v x : QString) (m : QMap) :
    (mapInsert k v m).lookup x = if x = k then some v else m.lookup x := by
  induction m with
  | nil =>
    unfold mapInsert
    rw [lookup_cons]
  | cons p m ih =>
    obtain ⟨k', v'⟩ := p
    unfold mapInsert
    by_cases h1 : k < k'
    · rw [if_pos h1, lookup_cons]
    · rw [if_neg h1]
      by_cases h2 : k = k'
      · rw [if_pos h2, lookup_cons, lookup_cons, ← h2]
        by_cases h : x = k
        · rw [if_pos h, if_pos h]
        · rw [if_neg h, if_neg h, if_neg h]
      · rw [if_neg h2, lookup_cons, lookup_cons, ih]
        by_cases h : x = k
        · have h' : ¬ x = k' := fun e => h2 (h.symm.trans e)
          rw [if_pos h, if_neg h', if_pos h]
        · rw [if_neg h, if_neg h]

theorem mapInsert_sorted (k v : QString) (m : QMap)
    (h : (mapKeys m).Pairwise (· < ·)) :
    (mapKeys (mapInsert k v m)).Pairwise (· < ·) := by
  induction m with
  | nil => simp [mapInsert, mapKeys]
  | cons p m ih =>
    obtain ⟨k', v'⟩ := p
    have hk : ∀ x ∈ mapKeys m, k' < x := by
      simpa [mapKeys] using (List.pairwise_cons.mp h).1
    have hm : (mapKeys m).Pairwise (· < ·) := (List.pairwise_cons.mp h).2
    unfold mapInsert
    by_cases h1 : k < k'
    · simp only [h1, if_true]
      show ((k :: mapKeys ((k', v') :: m))).Pairwise (· < ·)
      refine List.pairwise_cons.mpr ⟨?_, h⟩
      intro x hx
      have : x = k' ∨ x ∈ mapKeys m := by simpa [mapKeys] using hx
      rcases this with e | e
      · rw [e]; exact h1
      · exact lt_trans h1 (hk x e)
    · by_cases h2 : k = k'
      · rw [if_neg h1, if_pos h2]
        rw [h2]
        exact h
      · simp only [h1, h2, if_false]
        show ((k' :: mapKeys (mapInsert k v m))).Pairwise (· < ·)
        refine List.pairwise_cons.mpr ⟨?_, ih hm⟩
        intro x hx
        rcases (mapInsert_keys k v x m).mp hx with e | e
        · rw [e]
          rcases lt_trichotomy k k' with c | c | c
          · exact absurd c h1
          · exact absurd c h2
          · exact c
        · exact hk x e

theorem recordMatches_snoc (ms : List (QString × QString)) (p : QString × QString) (m : QMap) :
    recordMatches (ms ++ [p]) m = mapInsert ('$' :: p.1) p.2 (recordMatches ms m) := by
  simp [recordMatches, List.foldl_append]

theorem recordMatches_keys (ms : List (QString × QString)) (x : QString) :
    x ∈ mapKeys (recordMatches ms []) ↔ ∃ p ∈ ms, x = '$' :: p.1 := by
  induction ms using List.reverseRecOn with
  | nil => simp [recordMatches, mapKeys]
  | append_singleton ms p ih =>
    rw [recordMatches_snoc, mapInsert_keys, ih]
    constructor
    · rintro (h | ⟨q, hq, h⟩)
      · exact ⟨p, by simp, h⟩
      · exact ⟨q, by simp [hq], h⟩
    · rintro ⟨q, hq, h⟩
      rcases List.mem_append.mp hq with hq | hq
      · exact Or.inr ⟨q, hq, h⟩
      · have : q = p := by simpa using hq
        rw [this] at h
        exact Or.inl h

theorem recordMatches_sorted (ms : List (QString × QString)) :
    (mapKeys (recordMatches ms [])).Pairwise (· < ·) := by
  induction ms using List.reverseRecOn with
  | nil => simp [recordMatches, mapKeys]
  | append_singleton ms p ih =>
    rw [recordMatches_snoc]
    exact mapInsert_sorted _ _ _ ih

/-- The value stored under a key is the value of the last match that carries
the key. -/
theorem recordMatches_lookup (ms : List (QString × QString)) (x v : QString)
    (h : (recordMatches ms []).lookup x = some v) :
    ∃ pre id post, ms = pre ++ (id, v) :: post ∧ x = '$' :: id ∧
      ∀ p ∈ post, '$' :: p.1 ≠ x := by
  induction ms using List.reverseRecOn with
  | nil => simp [recordMatches, List.lookup] at h
  | append_singleton ms p ih =>
    rw [recordMatches_snoc, mapInsert_lookup] at h
    by_cases hx : x = '$' :: p.1
    · rw [if_pos hx] at h
      have hv : p.2 = v := Option.some.inj h
      refine ⟨ms, p.1, [], ?_, hx, by simp⟩
      rw [← hv]
    · rw [if_neg hx] at h
      obtain ⟨pre, id, post, e1, e2, e3⟩ := ih h
      refine ⟨pre, id, post ++ [p], ?_, e2, ?_⟩
      · rw [e1]; simp
      · intro q hq
        rcases List.mem_append.mp hq with hq | hq
        · exact e3 q hq
        · have : q = p := by simpa using hq
          rw [this]; exact fun e => hx e.symm

theorem lookup_of_mem_keys (m : QMap) (x : QString) (h : x ∈ mapKeys m) :
    ∃ v, m.lookup x = some v := by
  induction m with
  | nil => simp [mapKeys] at h
  | cons p m ih =>
    obtain ⟨k', v'⟩ := p
    by_cases e : x = k'
    · exact ⟨v', by rw [lookup_cons, if_pos e]⟩
    · have hx : x ∈ mapKeys m := by
        have : x = k' ∨ x ∈ mapKeys m := by simpa [mapKeys] using h
        rcases this with c | c
        · exact absurd c e
        · exact c
      obtain ⟨v, hv⟩ := ih hx
      exact ⟨v, by rw [lookup_cons, if_neg e, hv]⟩

theorem insertSorted_perm {α : Type} (lt : α → α → Bool) (x : α) (l : List α) :
    (insertSorted lt x l).Perm (x :: l) := by
  induction l with
  | nil => exact List.Perm.refl _
  | cons y ys ih =>
    unfold insertSorted
    split
    · exact List.Perm.refl _
    · exact (List.Perm.cons y ih).trans (List.Perm.swap x y ys)

theorem foldl_insertSorted_perm {α : Type} (lt : α → α → Bool) (l acc : List α) :
    (l.foldl (fun acc x => insertSorted lt x acc) acc).Perm (l ++ acc) := by
  induction l generalizing acc with
  | nil => exact List.Perm.refl _
  | cons x xs ih =>
    rw [List.foldl_cons]
    refine (ih (insertSorted lt x acc)).trans ?_
    refine (List.Perm.append_left xs (insertSorted_perm lt x acc)).trans ?_
    exact (List.perm_middle).trans (List.Perm.refl _)

theorem stdSort_perm {α : Type} (lt : α → α → Bool) (l : List α) : (stdSort lt l).Perm l := by
  have h := foldl_insertSorted_perm lt l []
  rw [List.append_nil] at h
  exact h

theorem insertSorted_pairwise {α : Type} (lt : α → α → Bool) (f : α → Int)
    (hlt : ∀ a b, lt a b = true ↔ f a < f b) (x : α) (l : List α)
    (h : l.Pairwise (fun a b => f a ≤ f b)) :
    (insertSorted lt x l).Pairwise (fun a b => f a ≤ f b) := by
  induction l with
  | nil => simp [insertSorted]
  | cons y ys ih =>
    have hy := (List.pairwise_cons.mp h).1
    have hys := (List.pairwise_cons.mp h).2
    unfold insertSorted
    by_cases c : lt x y = true
    · rw [if_pos c]
      have hxy : f x < f y := (hlt x y).mp c
      refine List.pairwise_cons.mpr ⟨?_, h⟩
      intro z hz
      rcases List.mem_cons.mp hz with e | e
      · rw [e]; exact le_of_lt hxy
      · exact le_trans (le_of_lt hxy) (hy z e)
    · rw [if_neg c]
      have hyx : f y ≤ f x := not_lt.mp (fun hh => c ((hlt x y).mpr hh))
      refine List.pairwise_cons.mpr ⟨?_, ih hys⟩
      intro z hz
      rcases List.mem_cons.mp ((insertSorted_perm lt x ys).subset hz) with e | e
      · rw [e]; exact hyx
      · exact hy z e

theorem foldl_insertSorted_pairwise {α : Type} (lt : α → α → Bool) (f : α → Int)
    (hlt : ∀ a b, lt a b = true ↔ f a < f b) (l acc : List α)
    (h : acc.Pairwise (fun a b => f a ≤ f b)) :
    (l.foldl (fun acc x => insertSorted lt x acc) acc).Pairwise (fun a b => f a ≤ f b) := by
  induction l generalizing acc with
  | nil => exact h
  | cons x xs ih =>
    rw [List.foldl_cons]
    exact ih _ (insertSorted_pairwise lt f hlt x acc h)

theorem stdSort_pairwise {α : Type} (lt : α → α → Bool) (f : α → Int)
    (hlt : ∀ a b, lt a b = true ↔ f a < f b) (l : List α) :
    (stdSort lt l).Pairwise (fun a b => f a ≤ f b) :=
  foldl_insertSorted_pairwise lt f hlt l [] List.Pairwise.nil

theorem numericKeyLessThan_iff (a b : QString) :
    numericKeyLessThan a b = true ↔ toInt (a.drop 1) < toInt (b.drop 1) := by
  simp [numericKeyLessThan]

/-! ## The settings dialog: the parsing loop -/

theorem takeWhile_all {α : Type} (p : α → Bool) (l : List α) : (l.takeWhile p).all p = true := by
  induction l with
  | nil => rfl
  | cons a l ih =>
    unfold List.takeWhile
    cases h : p a with
    | true => simp [h, ih]
    | false => rfl

theorem dropWhile_length_le {α : Type} (p : α → Bool) (l : List α) :
    (l.dropWhile p).length ≤ l.length := by
  induction l with
  | nil => exact Nat.le_refl _
  | cons a l ih =>
    unfold List.dropWhile
    cases h : p a with
    | true => exact Nat.le_succ_of_le ih
    | false => exact Nat.le_refl _

theorem settingMatchAt_some (l id v rest : QString)
    (h : settingMatchAt l = some (id, v, rest)) :
    id ≠ [] ∧ id.all Char.isDigit = true ∧ rest.length < l.length := by
  cases l with
  | nil => simp [settingMatchAt] at h
  | cons c r =>
    rw [settingMatchAt] at h
    split at h
    · split at h
      · exact absurd h (by simp)
      · rename_i hne
        split at h
        · exact absurd h (by simp)
        · rename_i e r2 hdrop
          split at h
          · split at h
            · exact absurd h (by simp)
            · have hh := Option.some.inj h
              have h1 : r.takeWhile Char.isDigit = id := congrArg Prod.fst hh
              have h3 : r2.dropWhile isNumChar = rest := congrArg (fun t => t.2.2) hh
              refine ⟨?_, ?_, ?_⟩
              · rw [← h1]
                intro hnil
                apply hne
                rw [hnil]; rfl
              · rw [← h1]; exact takeWhile_all _ _
              · rw [← h3]
                have a1 := dropWhile_length_le isNumChar r2
                have a2 := dropWhile_length_le Char.isDigit r
                rw [hdrop] at a2
                simp only [List.length_cons] at a2 ⊢
                omega
          · exact absurd h (by simp)
    · exact absurd h (by simp)

theorem indexIn_settingMatchAt_some (l id v rest : QString)
    (h : indexIn settingMatchAt l = some (id, v, rest)) :
    id ≠ [] ∧ id.all Char.isDigit = true ∧ rest.length < l.length := by
  induction l with
  | nil => exact settingMatchAt_some [] id v rest h
  | cons c cs ih =>
    unfold indexIn at h
    cases hm : settingMatchAt (c :: cs) with
    | some r =>
      rw [hm] at h
      have hr : r = (id, v, rest) := Option.some.inj h
      rw [hr] at hm
      exact settingMatchAt_some (c :: cs) id v rest hm
    | none =>
      rw [hm] at h
      obtain ⟨a, b, d⟩ := ih h
      exact ⟨a, b, Nat.lt_succ_of_lt d⟩

/-- The fuel of `settingsMatches` is never used up: any two fuels of at least
the length of the text give the same matches. -/
theorem settingsMatches_fuel (f1 : Nat) (f2 : Nat) (l : QString)
    (h1 : l.length ≤ f1) (h2 : l.length ≤ f2) :
    settingsMatches f1 l = settingsMatches f2 l := by
  induction f1 generalizing f2 l with
  | zero =>
    have hl : l = [] := List.length_eq_zero.mp (Nat.le_zero.mp h1)
    subst hl
    cases f2 with
    | zero => rfl
    | succ m => simp [settingsMatches, indexIn, settingMatchAt]
  | succ n ih =>
    cases f2 with
    | zero =>
      have hl : l = [] := List.length_eq_zero.mp (Nat.le_zero.mp h2)
      subst hl
      simp [settingsMatches, indexIn, settingMatchAt]
    | succ m =>
      unfold settingsMatches
      cases hm : indexIn settingMatchAt l with
      | none => rfl
      | some r =>
        obtain ⟨id, v, rest⟩ := r
        obtain ⟨-, -, hlen⟩ := indexIn_settingMatchAt_some l id v rest hm
        simp only []
        rw [ih m rest (by omega) (by omega)]

theorem settingsMatches_ids (fuel : Nat) (l : QString) :
    ∀ p ∈ settingsMatches fuel l, p.1 ≠ [] ∧ p.1.all Char.isDigit = true := by
  induction fuel generalizing l with
  | zero => intro p hp; simp [settingsMatches] at hp
  | succ n ih =>
    intro p hp
    unfold settingsMatches at hp
    cases hm : indexIn settingMatchAt l with
    | none => rw [hm] at hp; simp at hp
    | some r =>
      obtain ⟨id, v, rest⟩ := r
      rw [hm] at hp
      obtain ⟨a, b, -⟩ := indexIn_settingMatchAt_some l id v rest hm
      rcases List.mem_cons.mp hp with e | e
      · rw [e]; exact ⟨a, b⟩
      · exact ih rest p e

theorem toInt_of_small (id : QString) (h1 : id ≠ []) (h2 : id.all Char.isDigit = true)
    (h3 : decValue id ≤ 2147483647) : toInt id = (decValue id : Int) := by
  have he : id.isEmpty = false := by
    cases id with
    | nil => exact absurd rfl h1
    | cons a l => rfl
  unfold toInt
  rw [he, h2]
  simp [h3]

theorem rowsOf_keys (found : QMap) :
    (rowsOf found).map (fun row => row.1) = stdSort numericKeyLessThan (mapKeys found) := by
  unfold rowsOf
  rw [List.map_map]
  induction stdSort numericKeyLessThan (mapKeys found) with
  | nil => rfl
  | cons a l ih => rw [List.map_cons, ih]; rfl

theorem fetchedRows_key_iff (buffer k : QString) :
    k ∈ (fetchedRows buffer).map (fun row => row.1) ↔
      ∃ p ∈ allSettingMatches buffer, k = '$' :: p.1 := by
  unfold fetchedRows
  rw [rowsOf_keys, (stdSort_perm _ _).mem_iff, recordMatches_keys]

/-! ## The settings dialog: fetch and apply -/

/-- Claim C7, as the code has it.  When the accumulated buffer contains `ok`,
the reader disconnects and appends to the table exactly one row per distinct
key `$<id>` among the left-to-right, non-overlapping matches of
`\$(\d+)=([\d\.\-]+)`, each with the value of the last match of its key and
with its description.  The rows are in non-decreasing order of `toInt` of the
id, which is the integer id when that fits a 32-bit `int` and `0` when it does
not; so they are in non-decreasing order of the integer id when every id is at
most 2147483647. -/
theorem fetch_rows_sorted_by_toInt (g : GRBLSender) (table : List Row) (r : Reader)
    (data : QString) (hfound : r.found = [])
    (hok : contains "ok".toList (r.buffer ++ data) = true) :
    (readerReadyRead g table r data).connected = false ∧
    (readerReadyRead g table r data).table = table ++ fetchedRows (r.buffer ++ data) ∧
    ((fetchedRows (r.buffer ++ data)).map (fun row => row.1)).Nodup ∧
    (∀ k, k ∈ (fetchedRows (r.buffer ++ data)).map (fun row => row.1) ↔
      ∃ p ∈ allSettingMatches (r.buffer ++ data), k = '$' :: p.1) ∧
    (∀ row ∈ fetchedRows (r.buffer ++ data),
      ∃ pre id post, allSettingMatches (r.buffer ++ data) = pre ++ (id, row.2.1) :: post ∧
        row.1 = '$' :: id ∧ ∀ p ∈ post, '$' :: p.1 ≠ row.1) ∧
    (∀ row ∈ fetchedRows (r.buffer ++ data), row.2.2 = mapValue descriptions row.1 []) ∧
    ((fetchedRows (r.buffer ++ data)).map (fun row => toInt (row.1.drop 1))).Pairwise
      (fun a b => a ≤ b) ∧
    ((∀ p ∈ allSettingMatches (r.buffer ++ data), decValue p.1 ≤ 2147483647) →
      ((fetchedRows (r.buffer ++ data)).map (fun row => decValue (row.1.drop 1))).Pairwise
        (fun a b => a ≤ b)) := by
  have hsortedKeys : ((fetchedRows (r.buffer ++ data)).map (fun row => row.1)).Pairwise
      (fun a b => toInt (a.drop 1) ≤ toInt (b.drop 1)) := by
    unfold fetchedRows
    rw [rowsOf_keys]
    exact stdSort_pairwise _ _ numericKeyLessThan_iff _
  have hsorted : (fetchedRows (r.buffer ++ data)).Pairwise
      (fun a b => toInt (a.1.drop 1) ≤ toInt (b.1.drop 1)) := by
    rw [List.pairwise_map] at hsortedKeys
    exact hsortedKeys
  refine ⟨?_, ?_, ?_, fetchedRows_key_iff _, ?_, ?_, ?_, ?_⟩
  · simp only [readerReadyRead, hok, if_true]
  · simp only [readerReadyRead, hok, if_true, hfound, fetchedRows]
  · unfold fetchedRows
    rw [rowsOf_keys, (stdSort_perm _ _).nodup_iff]
    exact (recordMatches_sorted _).imp (fun h => ne_of_lt h)
  · intro row hrow
    have hkey : row.1 ∈ mapKeys (recordMatches (allSettingMatches (r.buffer ++ data)) []) := by
      have h1 : row.1 ∈ (fetchedRows (r.buffer ++ data)).map (fun row => row.1) :=
        List.mem_map_of_mem _ hrow
      unfold fetchedRows at h1
      rw [rowsOf_keys] at h1
      exact (stdSort_perm _ _).subset h1
    obtain ⟨v, hv⟩ := lookup_of_mem_keys _ _ hkey
    have hval : row.2.1 = v := by
      unfold fetchedRows rowsOf at hrow
      obtain ⟨key, -, hk⟩ := List.mem_map.mp hrow
      have e1 : key = row.1 := congrArg Prod.fst hk
      have e2 : mapValue (recordMatches (allSettingMatches (r.buffer ++ data)) []) key []
          = row.2.1 := congrArg (fun t => t.2.1) hk
      rw [← e2, e1, mapValue, hv]; rfl
    rw [hval]
    exact recordMatches_lookup _ _ _ hv
  · intro row hrow
    unfold fetchedRows rowsOf at hrow
    obtain ⟨key, -, hk⟩ := List.mem_map.mp hrow
    have e1 : key = row.1 := congrArg Prod.fst hk
    have e3 : mapValue descriptions key [] = row.2.2 := congrArg (fun t => t.2.2) hk
    rw [← e3, e1]
  · rw [List.pairwise_map]
    exact hsorted
  · intro hfit
    rw [List.pairwise_map]
    refine List.Pairwise.imp_of_mem ?_ hsorted
    intro a b ha hb hab
    have conv : ∀ row ∈ fetchedRows (r.buffer ++ data),
        toInt (row.1.drop 1) = (decValue (row.1.drop 1) : Int) := by
      intro row hrow
      obtain ⟨p, hp, hk⟩ := (fetchedRows_key_iff _ _).mp (List.mem_map_of_mem (fun row => row.1) hrow)
      obtain ⟨i1, i2⟩ := settingsMatches_ids _ _ p hp
      rw [hk]
      exact toInt_of_small p.1 i1 i2 (hfit p hp)
    rw [conv a ha, conv b hb] at hab
    exact_mod_cast hab

theorem fetch_rows_sorted_by_toInt_witness :
    (({ buffer := "$0=10\n".toList, found := [], originalValues := [] } : Reader).found = [] ∧
      contains "ok".toList ("$0=10\n".toList ++ "$100=250.000\nok\n".toList) = true) ∧
    fetchedRows ("$0=10\n".toList ++ "$100=250.000\nok\n".toList)
      = [("$0".toList, "10".toList, "Step pulse time (μs)".toList),
         ("$100".toList, "250.000".toList, "X steps/mm".toList)] ∧
    (readerReadyRead demoOpen [] { buffer := "$0=10\n".toList, found := [], originalValues := [] }
      "$100=250.000\nok\n".toList).table
      = [] ++ fetchedRows ("$0=10\n".toList ++ "$100=250.000\nok\n".toList) :=
  ⟨⟨rfl, by decide⟩, by decide,
    (fetch_rows_sorted_by_toInt demoOpen []
      { buffer := "$0=10\n".toList, found := [], originalValues := [] }
      "$100=250.000\nok\n".toList rfl (by decide)).2.1⟩

/-- Claim C7 as stated fails: the buffer holds the ids 5 and 4294967296, and
the row of `$4294967296` comes before the row of `$5`, because `toInt` fails on
`4294967296` and gives `0`. -/
theorem fetch_rows_not_sorted_by_id :
    contains "ok".toList "$5=1\n$4294967296=2\nok\n".toList = true ∧
    (fetchedRows "$5=1\n$4294967296=2\nok\n".toList).map (fun row => row.1)
      = ["$4294967296".toList, "$5".toList] ∧
    ¬ ((fetchedRows "$5=1\n$4294967296=2\nok\n".toList).map
        (fun row => decValue (row.1.drop 1))).Pairwise (fun a b => a ≤ b) := by
  refine ⟨by decide, by decide, by decide⟩

theorem applyClicked_empty_original (g : GRBLSender) (d : SettingsDialog)
    (h : d.applyOriginalValues = []) :
    applyClicked g d = { g with log := g.log ++ ["Sent modified GRBL settings.".toList] } := by
  have hfold : ∀ (t : List Row) (acc : GRBLSender),
      t.foldl (fun acc row =>
        if mapContains [] row.1 && mapValue [] row.1 [] != row.2.1 then
          sendCommand acc (row.1 ++ "=".toList ++ row.2.1 ++ "\n".toList)
        else acc) acc = acc := by
    intro t
    induction t with
    | nil => intro acc; rfl
    | cons row t ih =>
      intro acc
      rw [List.foldl_cons]
      exact ih acc
  unfold applyClicked
  rw [h]
  simp only [hfold]

theorem dialog_event_apply_copy (p : GRBLSender × SettingsDialog) (e : DialogEvent) :
    (e.run p).2.applyOriginalValues = p.2.applyOriginalValues := by
  cases e <;> rfl

/-- Whatever happens to the dialog after it is opened, the apply closure's
copy of `originalValues` stays empty, so the apply step writes nothing. -/
theorem apply_copy_stays_empty (g : GRBLSender) (evs : List DialogEvent) :
    (evs.foldl DialogEvent.run (g, openSettingsDialog)).2.applyOriginalValues = [] ∧
    (applyClicked (evs.foldl DialogEvent.run (g, openSettingsDialog)).1
        (evs.foldl DialogEvent.run (g, openSettingsDialog)).2).written
      = (evs.foldl DialogEvent.run (g, openSettingsDialog)).1.written := by
  have h : ∀ (p : GRBLSender × SettingsDialog), p.2.applyOriginalValues = [] →
      (evs.foldl DialogEvent.run p).2.applyOriginalValues = [] := by
    induction evs with
    | nil => intro p hp; exact hp
    | cons e es ih =>
      intro p hp
      rw [List.foldl_cons]
      exact ih _ ((dialog_event_apply_copy p e).trans hp)
  have h0 := h (g, openSettingsDialog) rfl
  refine ⟨h0, ?_⟩
  rw [applyClicked_empty_original _ _ h0]

/-- Claim C6 fails on the code.  After a fetch that read `$0=10` (the reader
closure recorded `10` as the original value in its own copy of
`originalValues`) and an edit of that row to `11`, the apply step writes
nothing to the open port: the map the apply closure consults is the empty copy
it took when the dialog was opened. -/
theorem apply_sends_nothing_for_edited_row :
    editedDialog.1.serialOpen = true ∧
    (readerReadyRead idleOpen [] freshReader "$0=10\nok\n".toList).reader.originalValues
      = [("$0".toList, "10".toList)] ∧
    editedDialog.2.table = [("$0".toList, "11".toList, "Step pulse time (μs)".toList)] ∧
    editedDialog.2.applyOriginalValues = [] ∧
    editedDialog.1.written = ["$$\n\n".toList] ∧
    (applyClicked editedDialog.1 editedDialog.2).written = ["$$\n\n".toList] := by
  refine ⟨by decide, by decide, by decide, by decide, by decide, by decide⟩

end QtGRBL
